import Mathlib

/-!
The pipeline execution engine of simpleshell (`shell.c`).

A shallow embedding of the functions of `src/shell.c` that build and run a
pipeline (`parse_input`, `parse_pipes`, `handle_redirection`,
`execute_command`, `execute_pipeline`, `execute`, `check_background` and the
dispatch step of `main`), together with the theorems that settle the claims
made about them.

The operating system is modelled from the point of view of one process: a
descriptor table, and the ordered log of the calls and messages the process
issues.  The outcomes the kernel decides (does `pipe` succeed, what does
`fork` return, which status does `waitpid` collect, can a path be opened, is a
command found on `PATH`) are fields of an environment `Env`, so every theorem
quantifies over them.
-/

set_option autoImplicit false

namespace Shell

/-! ## Constants of `shell.c` -/

/-- The `#define MAX_PIPES 10` of the source. -/
def MAX_PIPES : Nat := 10

/-- The `EXIT_FAILURE` of `stdlib.h`. -/
def EXIT_FAILURE : Nat := 1

/-- The `STDIN_FILENO` of `unistd.h`. -/
def STDIN_FILENO : Nat := 0

/-- The `STDOUT_FILENO` of `unistd.h`. -/
def STDOUT_FILENO : Nat := 1

/-! ## Descriptors -/

/-- The three flag combinations `handle_redirection` passes to `open`. -/
inductive OpenFlags where
  /-- The flags `O_WRONLY | O_CREAT | O_TRUNC`, used for `>`. -/
  | wr_creat_trunc
  /-- The flags `O_WRONLY | O_CREAT | O_APPEND`, used for `>>`. -/
  | wr_creat_append
  /-- The flag `O_RDONLY`, used for `<`. -/
  | rdonly
  deriving DecidableEq, Repr

/-- What a descriptor refers to (an open file description). -/
inductive Res where
  /-- Whatever the process held on descriptor `fd` when the call started. -/
  | inherited (fd : Nat)
  /-- Read end of the channel made by the `k`-th `pipe` call (`pipes[k][0]`). -/
  | pipe_rd (k : Nat)
  /-- Write end of the channel made by the `k`-th `pipe` call (`pipes[k][1]`). -/
  | pipe_wr (k : Nat)
  /-- A file opened by path with the given flags. -/
  | file (path : String) (flags : OpenFlags)
  deriving DecidableEq, Repr

/-- Tells whether a resource is an end of some channel. -/
def Res.isChannelEnd : Res → Bool
  | .pipe_rd _ => true
  | .pipe_wr _ => true
  | _ => false

/-- A descriptor table: entry `fd` is `some r` when descriptor `fd` is open on `r`. -/
abbrev FdTable := List (Option Res)

/-- The resource descriptor `fd` is open on, `none` when it is closed. -/
def FdTable.get (t : FdTable) (fd : Nat) : Option Res :=
  (t.get? fd).join

/-- The lowest descriptor number that is not open (what `open` and `pipe` hand out). -/
def FdTable.lowestFree (t : FdTable) : Nat :=
  t.findIdx (fun o => o.isNone)

/-- Make descriptor `fd` refer to `r`. -/
def FdTable.put (t : FdTable) (fd : Nat) (r : Res) : FdTable :=
  if fd < t.length then t.set fd (some r)
  else t ++ List.replicate (fd - t.length) none ++ [some r]

/-- The effect of `close(fd)` on the table; closing a closed descriptor changes nothing. -/
def FdTable.close (t : FdTable) (fd : Nat) : FdTable :=
  t.set fd none

/-- Tells whether no descriptor of the table is open on a channel end. -/
def FdTable.noChannelEnds (t : FdTable) : Bool :=
  t.all (fun o => match o with
    | some r => !r.isChannelEnd
    | none => true)

/-! ## Processes and what they emit -/

/-- The status `waitpid` stores: the child exited, or a signal terminated it. -/
inductive WaitStatus where
  /-- `WIFEXITED` holds and `WEXITSTATUS` is `code`. -/
  | exited (code : Nat)
  /-- `WIFSIGNALED` holds and `WTERMSIG` is `sig`. -/
  | signaled (sig : Nat)
  deriving DecidableEq, Repr

/-- The calls and messages of a process that the claims speak about, in order. -/
inductive Event where
  /-- A call `perror(s)`. -/
  | perror (s : String)
  /-- The message `peri: <cmd>: command not found`. -/
  | command_not_found (cmd : String)
  /-- A call `open(path, flags)`; `path` is `none` for a `NULL` pointer. -/
  | open_call (path : Option String) (flags : OpenFlags)
  /-- A call `waitpid(pid, &status, 0)`. -/
  | waitpid (pid : Nat)
  /-- The message `peri: command exited with status <code>`. -/
  | command_exited (code : Nat)
  /-- The message `peri: command terminated by signal <sig>`. -/
  | command_signaled (sig : Nat)
  /-- The message `peri: pipeline exited with status <code>`. -/
  | pipeline_exited (code : Nat)
  /-- The message `peri: pipeline terminated by signal <sig>`. -/
  | pipeline_signaled (sig : Nat)
  /-- The message `[<pid>] Process running in background`. -/
  | background_process (pid : Nat)
  /-- The message `[<pid>] Pipeline running in background`; `none` for a slot never written. -/
  | background_pipeline (pid : Option Nat)
  deriving DecidableEq, Repr

/-- One process as the model sees it: its descriptor table and its log. -/
structure Proc where
  /-- The descriptor table. -/
  fds : FdTable
  /-- The events issued so far, oldest first. -/
  log : List Event
  deriving DecidableEq, Repr

/-- Append one event to the log of a process. -/
def Proc.emit (p : Proc) (e : Event) : Proc :=
  { p with log := p.log ++ [e] }

/-- What the kernel and the file system decide. -/
structure Env where
  /-- Result of `command_exists(cmd)`. -/
  command_exists : String → Bool
  /-- Whether the `k`-th `pipe` call of `execute_pipeline` succeeds. -/
  pipe_ok : Nat → Bool
  /-- What the `i`-th `fork` call returns in the parent: `none` for `-1`, else the child's pid. -/
  fork : Nat → Option Nat
  /-- Whether `open(path, flags)` succeeds. -/
  open_ok : String → OpenFlags → Bool
  /-- The status collected by the `i`-th `waitpid` call. -/
  status : Nat → WaitStatus

/-! ## System calls -/

/-- The call `open(path, flags)`: logs the call; fails on a `NULL` path or when the
environment says so; otherwise returns the lowest free descriptor, now open on the file. -/
def sys_open (env : Env) (p : Proc) (path : Option String) (flags : OpenFlags) :
    Option Nat × Proc :=
  let p1 := p.emit (.open_call path flags)
  match path with
  | none => (none, p1)
  | some s =>
    if env.open_ok s flags then
      let fd := p1.fds.lowestFree
      (some fd, { p1 with fds := p1.fds.put fd (.file s flags) })
    else (none, p1)

/-- The call `dup2(oldfd, newfd)`: fails (returns `none`) when `oldfd` is not open;
does nothing when the two are equal; otherwise `newfd` now refers to what `oldfd` does. -/
def sys_dup2 (p : Proc) (oldfd newfd : Nat) : Option Proc :=
  match p.fds.get oldfd with
  | none => none
  | some r => if oldfd = newfd then some p else some { p with fds := p.fds.put newfd r }

/-- The call `close(fd)`. -/
def sys_close (p : Proc) (fd : Nat) : Proc :=
  { p with fds := p.fds.close fd }

/-- The call `pipe(pipes[k])` when it succeeds: the two lowest free descriptors, the
first open on the read end and the second on the write end of channel `k`. -/
def sys_pipe (p : Proc) (k : Nat) : (Nat × Nat) × Proc :=
  let rd := p.fds.lowestFree
  let t1 := p.fds.put rd (.pipe_rd k)
  let wr := t1.lowestFree
  ((rd, wr), { p with fds := t1.put wr (.pipe_wr k) })

/-! ## Argument vectors -/

/-- A C array of `char *`: `none` is the `NULL` pointer. -/
abbrev Args := List (Option String)

/-- The element `args[i]`; the arrays of the program end in `NULL`, and a read past
the end of the list is modelled as `NULL` too. -/
def Args.at (args : Args) (i : Nat) : Option String :=
  (args.get? i).join

/-- The argument vector `execvp` sees: the strings before the first `NULL`. -/
def Args.argv : Args → List String
  | [] => []
  | none :: _ => []
  | some s :: rest => s :: Args.argv rest

/-- How a function that may call `exit` ends in the process that runs it. -/
inductive Ret (α : Type) where
  /-- The function returned `a`. -/
  | done (a : α)
  /-- The process called `exit(code)`; its state at that point is kept. -/
  | exit (code : Nat) (p : Proc)
  /-- The model ran out of fuel (never the case with the fuel the callers give). -/
  | out_of_fuel
  deriving DecidableEq, Repr

/-- One branch of `handle_redirection`: `open` the operand with `flags`, `dup2` the new
descriptor onto `target`, `close` the new descriptor.  The result is `error` when the
branch calls `exit` (after `perror`), with the state of the process at that point. -/
def redirect (env : Env) (p : Proc) (path : Option String) (flags : OpenFlags)
    (target : Nat) : Except Proc Proc :=
  match sys_open env p path flags with
  | (none, p1) => .error (p1.emit (.perror "myshell"))
  | (some fd, p1) =>
    match sys_dup2 p1 fd target with
    | none => .error (sys_close (p1.emit (.perror "peri: dup2 error")) fd)
    | some p2 => .ok (sys_close p2 fd)

/-- The loop `for (int i = 0; args[i] != NULL; i++)` of `handle_redirection`, from index `i`. -/
def handle_redirection_loop (env : Env) : Nat → Nat → Args → Proc → Ret (Args × Proc)
  | 0, _, _, _ => .out_of_fuel
  | fuel + 1, i, args, p =>
    match args.at i with
    | none => .done (args, p)
    | some tok =>
      if tok = ">" then
        match redirect env p (args.at (i + 1)) .wr_creat_trunc STDOUT_FILENO with
        | .error p1 => .exit EXIT_FAILURE p1
        | .ok p1 => handle_redirection_loop env fuel (i + 1) (args.set i none) p1
      else if tok = ">>" then
        match redirect env p (args.at (i + 1)) .wr_creat_append STDOUT_FILENO with
        | .error p1 => .exit EXIT_FAILURE p1
        | .ok p1 => handle_redirection_loop env fuel (i + 1) (args.set i none) p1
      else if tok = "<" then
        match redirect env p (args.at (i + 1)) .rdonly STDIN_FILENO with
        | .error p1 => .exit EXIT_FAILURE p1
        | .ok p1 => handle_redirection_loop env fuel (i + 1) (args.set i none) p1
      else handle_redirection_loop env fuel (i + 1) args p

/-- The function `handle_redirection(args)`: returns the rewritten array and the process
state, or ends in `exit(EXIT_FAILURE)`. -/
def handle_redirection (env : Env) (args : Args) (p : Proc) : Ret (Args × Proc) :=
  handle_redirection_loop env (args.length + 1) 0 args p

/-! ## Tokenising -/

/-- The tokens that successive `strtok` calls return on `s` for the delimiter set
`delims`: the maximal runs of non-delimiter characters, in order.  The argument `cur`
is the run being read. -/
def strtok_all (delims : List Char) : List Char → List Char → List String
  | [], cur => if cur = [] then [] else [String.mk cur]
  | c :: cs, cur =>
    if c ∈ delims then
      (if cur = [] then strtok_all delims cs []
       else String.mk cur :: strtok_all delims cs [])
    else strtok_all delims cs (cur ++ [c])

/-- The function `parse_input(input)`: the tokens separated by the characters of
`" \t\r\n\a"`, followed by the terminating `NULL`. -/
def parse_input (input : String) : Args :=
  (strtok_all [' ', '\t', '\r', '\n', Char.ofNat 7] input.toList []).map some ++ [none]

/-- The trimming step of `parse_pipes`: skip the leading spaces, then overwrite the
trailing spaces, never going back past the first character kept. -/
def trim (token : String) : String :=
  match token.toList.dropWhile (fun c => c = ' ') with
  | [] => ""
  | c :: cs => String.mk (c :: (cs.reverse.dropWhile (fun d => d = ' ')).reverse)

/-- The loop `while (token != NULL && i < MAX_PIPES)` of `parse_pipes`: the first argument
is the tokens `strtok` has still to return, `commands` the entries written so far. -/
def parse_pipes_loop : List String → Nat → List String → List String
  | [], _, commands => commands
  | token :: rest, i, commands =>
    if i < MAX_PIPES then parse_pipes_loop rest (i + 1) (commands ++ [trim token])
    else commands

/-- The function `parse_pipes(input, commands)`: the entries written to `commands`; the
value returned by the C function is their number. -/
def parse_pipes (input : String) : List String :=
  parse_pipes_loop (strtok_all ['|'] input.toList []) 0 []

/-- The function `check_background(args)`: the array after the call and the value returned. -/
def check_background (args : Args) : Args × Bool :=
  let i := args.argv.length
  if 0 < i ∧ args.at (i - 1) = some "&" then (args.set (i - 1) none, true)
  else (args, false)

/-! ## Children -/

/-- How far a child gets. -/
inductive ChildEnd where
  /-- The child reaches the call `execvp(file, args)`; `argv` is what the call passes and
  `p` the state of the child at the call. -/
  | execvp (file : Option String) (argv : List String) (p : Proc)
  /-- The child calls `exit(code)` before that. -/
  | exit (code : Nat) (p : Proc)
  /-- The model ran out of fuel. -/
  | out_of_fuel
  deriving DecidableEq, Repr

/-- A process created by `fork`. -/
structure Child where
  /-- Index `i` of the segment the process was created for. -/
  seg : Nat
  /-- The pid `fork` returned to the parent. -/
  pid : Nat
  /-- What the child does. -/
  run : ChildEnd
  deriving DecidableEq, Repr

/-- The last two steps of both child branches: `handle_redirection(args)` and then
`execvp(args[0], args)`. -/
def redirect_and_exec (env : Env) (args : Args) (c : Proc) : ChildEnd :=
  match handle_redirection env args c with
  | .out_of_fuel => .out_of_fuel
  | .exit code c1 => .exit code c1
  | .done (args1, c1) => .execvp (args1.at 0) args1.argv c1

/-- The branch `pid == 0` of `execute_command`: the child starts with a copy of the
parent's descriptors.  (`setpgid` and `signal` touch neither descriptors nor arguments.) -/
def command_child (env : Env) (args : Args) (parent : Proc) : ChildEnd :=
  redirect_and_exec env args ⟨parent.fds, []⟩

/-- The loop `for (j = 0; j < num_commands - 1; j++) { close(pipes[j][0]); close(pipes[j][1]); }`,
which both the children and the parent run. -/
def close_pipes (pipes : List (Nat × Nat)) (p : Proc) : Proc :=
  pipes.foldl (fun q pr => sys_close (sys_close q pr.1) pr.2) p

/-- The branch `pids[i] == 0` of `execute_pipeline` for segment `i` of `num_commands`. -/
def pipeline_child (env : Env) (pipes : List (Nat × Nat)) (num_commands i : Nat)
    (args : Args) (parent : Proc) : ChildEnd :=
  let c0 : Proc := ⟨parent.fds, []⟩
  let r1 : Option Proc :=
    if 0 < i then sys_dup2 c0 (pipes.getD (i - 1) (0, 0)).1 STDIN_FILENO else some c0
  match r1 with
  | none => .exit EXIT_FAILURE (c0.emit (.perror "peri: dup2 failed"))
  | some c1 =>
    let r2 : Option Proc :=
      if i < num_commands - 1 then sys_dup2 c1 (pipes.getD i (0, 0)).2 STDOUT_FILENO
      else some c1
    match r2 with
    | none => .exit EXIT_FAILURE (c1.emit (.perror "peri: dup2 failed"))
    | some c2 => redirect_and_exec env args (close_pipes pipes c2)

/-! ## The parent -/

/-- What a call of the engine leaves behind. -/
structure Outcome where
  /-- The interpreter process when the call ends. -/
  parent : Proc
  /-- The value `some code` when the interpreter itself called `exit(code)` inside the call,
  and `none` when the call returned to its caller. -/
  exit_code : Option Nat
  /-- The processes created, in creation order. -/
  children : List Child
  deriving DecidableEq, Repr

/-- The function `execute_command(args, background)`, parent side. -/
def execute_command (env : Env) (args : Args) (background : Bool) (p : Proc) : Outcome :=
  match args.at 0 with
  | none => ⟨p, none, []⟩
  | some cmd =>
    if !env.command_exists cmd then ⟨p.emit (.command_not_found cmd), none, []⟩
    else
      match env.fork 0 with
      | none => ⟨p.emit (.perror "peri: fork failed"), none, []⟩
      | some pid =>
        let child : Child := ⟨0, pid, command_child env args p⟩
        if !background then
          let p1 := p.emit (.waitpid pid)
          let p2 := match env.status 0 with
            | .exited exit_status =>
              if exit_status ≠ 0 then p1.emit (.command_exited exit_status) else p1
            | .signaled sig => p1.emit (.command_signaled sig)
          ⟨p2, none, [child]⟩
        else ⟨p.emit (.background_process pid), none, [child]⟩

/-- The loop `for (i = 0; i < num_commands - 1; i++)` that creates the pipes: the first
argument counts the iterations left.  The result is `error` when a `pipe` call fails and
the function returns at once. -/
def create_pipes (env : Env) : Nat → Nat → List (Nat × Nat) → Proc →
    Except Proc (List (Nat × Nat) × Proc)
  | 0, _, pipes, p => .ok (pipes, p)
  | left + 1, i, pipes, p =>
    if env.pipe_ok i then
      create_pipes env left (i + 1) (pipes ++ [(sys_pipe p i).1]) (sys_pipe p i).2
    else .error (p.emit (.perror "peri: pipe creation failed"))

/-- The loop `for (i = 0; i < num_commands; i++)` that forks the children: the first list
is `commands[i..]`, `pids` and `children` what was produced so far.  The result is `error`
when a `fork` fails and the parent calls `exit(EXIT_FAILURE)`. -/
def spawn_loop (env : Env) (pipes : List (Nat × Nat)) (num_commands : Nat) (p : Proc) :
    List String → Nat → List Nat → List Child → Except Outcome (List Nat × List Child)
  | [], _, pids, children => .ok (pids, children)
  | command :: rest, i, pids, children =>
    match env.fork i with
    | none => .error ⟨p.emit (.perror "peri: fork failed"), some EXIT_FAILURE, children⟩
    | some pid =>
      spawn_loop env pipes num_commands p rest (i + 1) (pids ++ [pid])
        (children ++ [⟨i, pid, pipeline_child env pipes num_commands i (parse_input command) p⟩])

/-- The loop `for (i = 0; i < num_commands; i++)` that waits for the children: the list is
`pids[i..]`. -/
def wait_loop (env : Env) (num_commands : Nat) : List Nat → Nat → Proc → Proc
  | [], _, p => p
  | pid :: rest, i, p =>
    let p1 := p.emit (.waitpid pid)
    let p2 := match env.status i with
      | .exited exit_status =>
        if exit_status ≠ 0 ∧ i = num_commands - 1 then p1.emit (.pipeline_exited exit_status)
        else p1
      | .signaled sig => p1.emit (.pipeline_signaled sig)
    wait_loop env num_commands rest (i + 1) p2

/-- The function `execute_pipeline(commands, num_commands, background)`, parent side;
`num_commands` is the length of `commands`, as at the only call site. -/
def execute_pipeline (env : Env) (commands : List String) (background : Bool) (p : Proc) :
    Outcome :=
  let num_commands := commands.length
  if num_commands = 1 then
    execute_command env (parse_input (commands.headD "")) background p
  else
    match create_pipes env (num_commands - 1) 0 [] p with
    | .error p1 => ⟨p1, none, []⟩
    | .ok (pipes, p1) =>
      match spawn_loop env pipes num_commands p1 commands 0 [] [] with
      | .error out => out
      | .ok (pids, children) =>
        let p2 := close_pipes pipes p1
        if !background then ⟨wait_loop env num_commands pids 0 p2, none, children⟩
        else ⟨p2.emit (.background_pipeline pids.head?), none, children⟩

/-- The string `execute` builds from `args`: every token followed by one space. -/
def command_str (args : Args) : String :=
  String.join (args.argv.map (fun a => a ++ " "))

/-- The function `execute(args, background)`. -/
def execute (env : Env) (args : Args) (background : Bool) (p : Proc) : Outcome :=
  execute_pipeline env (parse_pipes (command_str args)) background p

/-- What one turn of the loop of `main` does with an input line. -/
inductive Turn where
  /-- The line is empty or holds no token: nothing is run. -/
  | skipped
  /-- The first token is `exit`: the loop ends. -/
  | exit_shell
  /-- The first token is `cd` or `history`: a built-in runs. -/
  | builtin
  /-- Anything else: `execute` runs on the tokens, with this outcome. -/
  | engine (commands : List String) (background : Bool) (out : Outcome)
  deriving DecidableEq, Repr

/-- One turn of the `while (1)` loop of `main` on the line `input`; for a line that goes
to the engine the result records the `commands` and `background` that `execute` hands to
`execute_pipeline`. -/
def main_turn (env : Env) (input : String) (p : Proc) : Turn :=
  if input.length = 0 then .skipped
  else
    let args := parse_input input
    match args.at 0 with
    | none => .skipped
    | some a0 =>
      if a0 = "exit" then .exit_shell
      else if a0 = "cd" then .builtin
      else if a0 = "history" then .builtin
      else
        let r := check_background args
        .engine (parse_pipes (command_str r.1)) r.2 (execute env r.1 r.2 p)

/-! ## Redirections, as the specification words them -/

/-- The flags and the standard stream that go with an operator token, read off the three
`strcmp` tests of `handle_redirection`; `none` for any other token. -/
def redirect_kind (tok : String) : Option (OpenFlags × Nat) :=
  if tok = ">" then some (.wr_creat_trunc, STDOUT_FILENO)
  else if tok = ">>" then some (.wr_creat_append, STDOUT_FILENO)
  else if tok = "<" then some (.rdonly, STDIN_FILENO)
  else none

/-- Tells whether a token is one of the operators `<`, `>`, `>>`. -/
def is_redirect (tok : String) : Bool :=
  (redirect_kind tok).isSome

/-- The redirections of a token list, in order: for each operator token its flags, its
standard stream and its operand, the token that follows it (`none` when nothing follows). -/
def redirections : List String → List (OpenFlags × Nat × Option String)
  | [] => []
  | tok :: rest =>
    match redirect_kind tok with
    | none => redirections rest
    | some (flags, target) => (flags, target, rest.head?) :: redirections rest

/-- Tells whether each operator is followed by an operand that `open` accepts. -/
def opens_succeed (env : Env) (toks : List String) : Bool :=
  (redirections toks).all (fun r =>
    match r.2.2 with
    | some path => env.open_ok path r.1
    | none => false)

/-- The file named by the operand of the last operator for the stream `target`, if the list
holds one. -/
def last_redirect (target : Nat) : List String → Option Res
  | [] => none
  | tok :: rest =>
    match last_redirect target rest with
    | some r => some r
    | none =>
      match redirect_kind tok, rest.head? with
      | some (flags, tgt), some path => if tgt = target then some (.file path flags) else none
      | _, _ => none

/-- The resource on descriptor `x` after the loop of `handle_redirection` has run on `toks`
from the table `t` with every `open` succeeding (`redirect_all_effect` shows it).  A
redirection of standard input takes effect unless descriptor 0 is closed on entry, for
then `open` returns 0 and the final `close` closes it again; a redirection of standard
output takes effect unless descriptor 1 is closed and descriptor 0 open on entry, for then
`open` returns 1. -/
def after_redirections (t : FdTable) (toks : List String) (x : Nat) : Option Res :=
  if x = STDIN_FILENO then
    (if t.get STDIN_FILENO = none then none
     else
      match last_redirect STDIN_FILENO toks with
      | some r => some r
      | none => t.get STDIN_FILENO)
  else if x = STDOUT_FILENO then
    (if t.get STDIN_FILENO ≠ none ∧ t.get STDOUT_FILENO = none then none
     else
      match last_redirect STDOUT_FILENO toks with
      | some r => some r
      | none => t.get STDOUT_FILENO)
  else t.get x

/-- The argument list the claim on stripping describes: each operator token and its operand
deleted, every other token kept in order. -/
def strip_redirections : List String → List String
  | [] => []
  | [tok] => if is_redirect tok then [] else [tok]
  | tok :: operand :: rest =>
    if is_redirect tok then strip_redirections rest
    else tok :: strip_redirections (operand :: rest)

/-- The array `handle_redirection` leaves behind: every operator token overwritten by `NULL`. -/
def mark_redirections (toks : List String) : Args :=
  toks.map (fun tok => if is_redirect tok then none else some tok)

/-- The descriptor work of the loop of `handle_redirection`, told as a recursion over the
tokens from the current one on (`handle_redirection_loop_eq` shows the loop does this). -/
def redirect_all (env : Env) : List String → Proc → Except Proc Proc
  | [], p => .ok p
  | tok :: rest, p =>
    match redirect_kind tok with
    | none => redirect_all env rest p
    | some (flags, target) =>
      match redirect env p rest.head? flags target with
      | .error p1 => .error p1
      | .ok p1 => redirect_all env rest p1

/-- The argument vector a child passes to `execvp`, when it gets that far. -/
def ChildEnd.argv? : ChildEnd → Option (List String)
  | .execvp _ argv _ => some argv
  | _ => none

/-- The program name a child passes to `execvp` (`none` for `NULL`), when it gets that far. -/
def ChildEnd.file? : ChildEnd → Option (Option String)
  | .execvp file _ _ => some file
  | _ => none

/-- The resources on descriptors 0 and 1 of a child at its `execvp`, when it gets that far. -/
def ChildEnd.stdio? : ChildEnd → Option (Option Res × Option Res)
  | .execvp _ _ q => some (q.fds.get STDIN_FILENO, q.fds.get STDOUT_FILENO)
  | _ => none

/-! ## Concrete inputs -/

/-- An environment in which every command is found, every `pipe` and `open` succeeds, the
`i`-th `fork` returns pid `100 + i`, and every child exits with status 0. -/
def env_ok : Env :=
  ⟨fun _ => true, fun _ => true, fun i => some (100 + i), fun _ _ => true, fun _ => .exited 0⟩

/-- The interpreter at the start of a call: descriptors 0, 1 and 2 open, empty log. -/
def std_proc : Proc :=
  ⟨[some (.inherited 0), some (.inherited 1), some (.inherited 2)], []⟩

/-- A child in the middle of a pipeline just before `handle_redirection`: standard input on
the read end of channel 0, standard output on the write end of channel 1. -/
def middle_proc : Proc :=
  ⟨[some (.pipe_rd 0), some (.pipe_wr 1), some (.inherited 2)], []⟩

/-- An interpreter whose standard output was closed before the call. -/
def no_stdout_proc : Proc :=
  ⟨[some (.inherited 0), none, some (.inherited 2)], []⟩

/-- An interpreter whose standard input was closed before the call. -/
def no_stdin_proc : Proc :=
  ⟨[none, some (.inherited 1), some (.inherited 2)], []⟩

/-- Like `env_ok`, but the second `pipe` call fails (as with `EMFILE`). -/
def env_second_pipe_fails : Env :=
  { env_ok with pipe_ok := fun k => decide (k = 0) }

/-- Like `env_ok`, but `command_exists("nosuchcmd")` is 0. -/
def env_missing : Env :=
  { env_ok with command_exists := fun cmd => decide (cmd ≠ "nosuchcmd") }

/-- Like `env_ok`, but the first child of the pipeline is killed by signal 13 (`SIGPIPE`). -/
def env_first_signaled : Env :=
  { env_ok with status := fun i => if i = 0 then .signaled 13 else .exited 0 }

/-- Like `env_ok`, but every `fork` fails. -/
def env_fork_fails : Env :=
  { env_ok with fork := fun _ => none }

/-- Like `env_ok`, but only the first `fork` succeeds. -/
def env_second_fork_fails : Env :=
  { env_ok with fork := fun i => if i = 0 then some 100 else none }

/-- The `commands` a turn of `main` hands to `execute_pipeline`, if it gets there. -/
def Turn.commands? : Turn → Option (List String)
  | .engine commands _ _ => some commands
  | _ => none

/-- The outcome of the engine for a turn of `main`, if it gets there. -/
def Turn.outcome? : Turn → Option Outcome
  | .engine _ _ out => some out
  | _ => none

/-! ## The invariant of pipe creation -/

/-- What holds of the table `t` after the pipes `pipes` were created from the table `t0`:
the descriptors of `pipes[k]` are open on the two ends of channel `k` and were free in `t0`,
and every other descriptor is as in `t0`. -/
def PipesInv (t0 : FdTable) (pipes : List (Nat × Nat)) (t : FdTable) : Prop :=
  (∀ k pr, pipes[k]? = some pr →
    t.get pr.1 = some (.pipe_rd k) ∧ t.get pr.2 = some (.pipe_wr k) ∧
    t0.get pr.1 = none ∧ t0.get pr.2 = none) ∧
  (∀ x, (∀ pr ∈ pipes, x ≠ pr.1 ∧ x ≠ pr.2) → t.get x = t0.get x)

/-! ## Descriptor tables, pointwise -/

theorem FdTable.get_put (t : FdTable) (fd : Nat) (r : Res) (x : Nat) :
    (t.put fd r).get x = if x = fd then some r else t.get x := by
  unfold FdTable.put FdTable.get
  simp only [List.get?_eq_getElem?]
  by_cases hlt : fd < t.length
  · rw [if_pos hlt, List.getElem?_set]
    by_cases hx : x = fd
    · subst hx; simp [hlt]
    · have hx' : ¬ fd = x := fun h => hx h.symm
      simp [hx, hx']
  · rw [if_neg hlt]
    have hle : t.length ≤ fd := Nat.le_of_not_lt hlt
    by_cases hx : x = fd
    · subst hx
      have hlen : (t ++ List.replicate (x - t.length) (none : Option Res)).length = x := by
        simp; omega
      have h := List.getElem?_concat_length
        (t ++ List.replicate (x - t.length) (none : Option Res)) (some r)
      rw [hlen] at h
      rw [h, if_pos rfl]
      rfl
    · rw [if_neg hx, List.append_assoc, List.getElem?_append]
      by_cases hxt : x < t.length
      · simp [hxt]
      · have h1 : t[x]? = none := List.getElem?_eq_none (Nat.le_of_not_lt hxt)
        rw [if_neg hxt, h1, List.getElem?_append]
        by_cases hx2 : x - t.length < (List.replicate (fd - t.length) (none : Option Res)).length
        · rw [if_pos hx2, List.getElem?_replicate]
          split <;> rfl
        · rw [if_neg hx2]
          simp only [List.length_replicate] at hx2 ⊢
          have hne : x - t.length - (fd - t.length) ≠ 0 := by omega
          obtain ⟨m, hm⟩ := Nat.exists_eq_succ_of_ne_zero hne
          rw [hm]
          rfl

theorem FdTable.get_close (t : FdTable) (fd x : Nat) :
    (t.close fd).get x = if x = fd then none else t.get x := by
  unfold FdTable.close FdTable.get
  simp only [List.get?_eq_getElem?]
  rw [List.getElem?_set]
  by_cases hx : x = fd
  · subst hx
    by_cases hlt : x < t.length <;> simp [hlt]
  · have hx' : ¬ fd = x := fun h => hx h.symm
    simp [hx, hx']

theorem FdTable.get_lowestFree (t : FdTable) : t.get t.lowestFree = none := by
  unfold FdTable.get FdTable.lowestFree
  simp only [List.get?_eq_getElem?]
  cases h : t[List.findIdx (fun o => o.isNone) t]? with
  | none => rfl
  | some y =>
    have hy := List.findIdx_of_getElem?_eq_some h
    cases y with
    | none => rfl
    | some r => simp at hy

theorem FdTable.lowestFree_ne (t : FdTable) (fd : Nat) (h : t.get fd ≠ none) :
    t.lowestFree ≠ fd := by
  intro he
  apply h
  rw [← he]
  exact t.get_lowestFree

theorem FdTable.noChannelEnds_get (t : FdTable) (h : t.noChannelEnds = true) (fd : Nat)
    (r : Res) (hr : t.get fd = some r) : r.isChannelEnd = false := by
  unfold FdTable.noChannelEnds at h
  rw [List.all_eq_true] at h
  unfold FdTable.get at hr
  simp only [List.get?_eq_getElem?] at hr
  cases hx : t[fd]? with
  | none => rw [hx] at hr; cases hr
  | some o =>
    rw [hx] at hr
    have hm : o ∈ t := List.getElem?_mem hx
    have ho := h o hm
    cases o with
    | none => cases hr
    | some r1 =>
      have : r1 = r := by simpa using hr
      subst this
      simpa using ho

/-! ## Argument arrays -/

theorem Args.at_append_length (pre : Args) (x : Option String) (xs : Args) :
    Args.at (pre ++ x :: xs) pre.length = x := by
  unfold Args.at
  simp only [List.get?_eq_getElem?]
  rw [List.getElem?_append_right (Nat.le_refl _)]
  simp

theorem Args.at_append_succ (pre : Args) (x : Option String) (xs : Args) :
    Args.at (pre ++ x :: xs) (pre.length + 1) = Args.at xs 0 := by
  unfold Args.at
  simp only [List.get?_eq_getElem?]
  rw [List.getElem?_append_right (by omega)]
  simp

theorem Args.at_zero_map (rest : List String) :
    Args.at (rest.map some ++ [none]) 0 = rest.head? := by
  cases rest <;> rfl

theorem Args.set_append_length (pre : Args) (x y : Option String) (xs : Args) :
    (pre ++ x :: xs).set pre.length y = pre ++ y :: xs := by
  rw [List.set_append_right _ _ (Nat.le_refl _)]
  simp

theorem Args.argv_map_some (toks : List String) (rest : Args) :
    Args.argv (toks.map some ++ none :: rest) = toks := by
  induction toks with
  | nil => rfl
  | cons t ts ih => simp [Args.argv, ih]

theorem Args.argv_mark (toks : List String) :
    Args.argv (mark_redirections toks ++ [none]) =
      toks.takeWhile (fun tok => !is_redirect tok) := by
  induction toks with
  | nil => rfl
  | cons t ts ih =>
    unfold mark_redirections at ih ⊢
    by_cases h : is_redirect t = true
    · simp [h, Args.argv]
    · simp [h, Args.argv, ih]

/-! ## The loop of `handle_redirection` -/

theorem handle_redirection_loop_eq (env : Env) (rest : List String) :
    ∀ (pre : Args) (p : Proc) (fuel : Nat), rest.length < fuel →
      handle_redirection_loop env fuel pre.length (pre ++ (rest.map some ++ [none])) p =
        match redirect_all env rest p with
        | .error p1 => .exit EXIT_FAILURE p1
        | .ok p1 => .done (pre ++ (mark_redirections rest ++ [none]), p1) := by
  induction rest with
  | nil =>
    intro pre p fuel hf
    obtain ⟨f, rfl⟩ := Nat.exists_eq_succ_of_ne_zero (Nat.ne_of_gt hf)
    simp [handle_redirection_loop, Args.at_append_length, redirect_all, mark_redirections]
  | cons tok rest ih =>
    intro pre p fuel hf
    obtain ⟨f, rfl⟩ := Nat.exists_eq_succ_of_ne_zero (Nat.ne_of_gt (Nat.lt_of_le_of_lt (Nat.zero_le _) hf))
    have hf' : rest.length < f := by simpa using hf
    have hnext : ∀ (y : Option String) (q : Proc),
        handle_redirection_loop env f (pre.length + 1) (pre ++ y :: (rest.map some ++ [none])) q =
          match redirect_all env rest q with
          | .error p1 => .exit EXIT_FAILURE p1
          | .ok p1 => .done (pre ++ y :: (mark_redirections rest ++ [none]), p1) := by
      intro y q
      have h := ih (pre ++ [y]) q f hf'
      simpa using h
    have hoperand : Args.at (pre ++ some tok :: (rest.map some ++ [none])) (pre.length + 1)
        = rest.head? := by
      rw [Args.at_append_succ, Args.at_zero_map]
    simp only [List.map_cons, List.cons_append, handle_redirection_loop,
      Args.at_append_length, hoperand, Args.set_append_length, hnext]
    by_cases h1 : tok = ">"
    · subst h1
      simp only [redirect_all, redirect_kind, mark_redirections, is_redirect, if_true]
      cases h : redirect env p rest.head? .wr_creat_trunc STDOUT_FILENO <;> simp [h]
    · by_cases h2 : tok = ">>"
      · subst h2
        simp only [redirect_all, redirect_kind, mark_redirections, is_redirect]
        cases h : redirect env p rest.head? .wr_creat_append STDOUT_FILENO <;> simp [h]
      · by_cases h3 : tok = "<"
        · subst h3
          simp only [redirect_all, redirect_kind, mark_redirections, is_redirect]
          cases h : redirect env p rest.head? .rdonly STDIN_FILENO <;> simp [h]
        · simp [redirect_all, redirect_kind, mark_redirections, is_redirect, h1, h2, h3]

theorem handle_redirection_eq (env : Env) (toks : List String) (p : Proc) :
    handle_redirection env (toks.map some ++ [none]) p =
      match redirect_all env toks p with
      | .error p1 => .exit EXIT_FAILURE p1
      | .ok p1 => .done (mark_redirections toks ++ [none], p1) := by
  have h := handle_redirection_loop_eq env toks [] p ((toks.map some ++ [none]).length + 1)
    (by simp; omega)
  simpa [handle_redirection] using h

/-! ## What one redirection does -/

theorem FdTable.lowestFree_eq_zero (t : FdTable) :
    t.lowestFree = 0 ↔ t.get 0 = none := by
  cases t with
  | nil => simp [FdTable.lowestFree, FdTable.get]
  | cons o rest =>
    cases o with
    | none => simp [FdTable.lowestFree, FdTable.get, List.findIdx_cons]
    | some r => simp [FdTable.lowestFree, FdTable.get, List.findIdx_cons]

theorem FdTable.lowestFree_eq_one (t : FdTable) :
    t.lowestFree = 1 ↔ t.get 0 ≠ none ∧ t.get 1 = none := by
  cases t with
  | nil => simp [FdTable.lowestFree, FdTable.get]
  | cons o rest =>
    cases o with
    | none => simp [FdTable.lowestFree, FdTable.get, List.findIdx_cons]
    | some r =>
      have h := FdTable.lowestFree_eq_zero rest
      simp only [FdTable.lowestFree, FdTable.get] at h ⊢
      simp [List.findIdx_cons, h]

/-- One redirection whose `open` succeeds: the branch ends normally, logs the `open`, and
changes no descriptor but `target`; `target` ends on the file, unless `open` returned
`target` itself (it was the lowest free descriptor), in which case the final `close` closes
it again. -/
theorem redirect_step (env : Env) (p : Proc) (path : String) (flags : OpenFlags)
    (target : Nat) (hopen : env.open_ok path flags = true) :
    ∃ p1, redirect env p (some path) flags target = .ok p1 ∧
      p1.log = p.log ++ [.open_call (some path) flags] ∧
      ∀ x, p1.fds.get x =
        if x = target then
          (if p.fds.lowestFree = target then none else some (.file path flags))
        else p.fds.get x := by
  have hget : (p.fds.put p.fds.lowestFree (.file path flags)).get p.fds.lowestFree
      = some (.file path flags) := by
    rw [FdTable.get_put, if_pos rfl]
  by_cases heq : p.fds.lowestFree = target
  · refine ⟨sys_close ⟨p.fds.put p.fds.lowestFree (.file path flags),
      p.log ++ [.open_call (some path) flags]⟩ p.fds.lowestFree, ?_, ?_, ?_⟩
    · subst heq
      simp only [redirect, sys_open, Proc.emit, hopen, if_true, sys_dup2, hget]
    · rfl
    · intro x
      simp only [sys_close, FdTable.get_close, FdTable.get_put, heq, if_true]
      by_cases hx : x = target
      · simp [hx]
      · simp [hx]
  · refine ⟨sys_close ⟨(p.fds.put p.fds.lowestFree (.file path flags)).put target
      (.file path flags), p.log ++ [.open_call (some path) flags]⟩ p.fds.lowestFree, ?_, ?_, ?_⟩
    · simp only [redirect, sys_open, Proc.emit, hopen, if_true, sys_dup2, hget, heq, if_false]
    · rfl
    · intro x
      simp only [sys_close, FdTable.get_close, FdTable.get_put, heq, if_false]
      by_cases hx : x = p.fds.lowestFree
      · subst hx
        rw [if_pos rfl, if_neg heq, FdTable.get_lowestFree]
      · rw [if_neg hx]
        by_cases hxt : x = target
        · simp [hxt]
        · simp [hxt, hx]

theorem redirect_kind_target (tok : String) (flags : OpenFlags) (target : Nat)
    (h : redirect_kind tok = some (flags, target)) :
    target = STDIN_FILENO ∨ target = STDOUT_FILENO := by
  unfold redirect_kind at h
  split at h
  · simp at h; exact Or.inr h.2.symm
  · split at h
    · simp at h; exact Or.inr h.2.symm
    · split at h
      · simp at h; exact Or.inl h.2.symm
      · cases h

theorem after_redirections_skip (t : FdTable) (tok : String) (rest : List String)
    (hk : redirect_kind tok = none) (x : Nat) :
    after_redirections t (tok :: rest) x = after_redirections t rest x := by
  have h : ∀ target, last_redirect target (tok :: rest) = last_redirect target rest := by
    intro target
    simp only [last_redirect, hk]
    cases last_redirect target rest <;> rfl
  simp only [after_redirections, h]

theorem after_redirections_step (p q : FdTable) (tok : String) (rest : List String)
    (flags : OpenFlags) (target : Nat) (path : String)
    (hk : redirect_kind tok = some (flags, target)) (hop : rest.head? = some path)
    (hq : ∀ x, q.get x =
      if x = target then (if p.lowestFree = target then none else some (.file path flags))
      else p.get x) (x : Nat) :
    after_redirections q rest x = after_redirections p (tok :: rest) x := by
  have hl0 := FdTable.lowestFree_eq_zero p
  have hl1 := FdTable.lowestFree_eq_one p
  have hq0 := hq STDIN_FILENO
  have hq1 := hq STDOUT_FILENO
  have hlast : ∀ y, last_redirect y (tok :: rest) =
      match last_redirect y rest with
      | some r => some r
      | none => if target = y then some (.file path flags) else none := by
    intro y
    simp only [last_redirect, hk, hop]
  rcases redirect_kind_target tok flags target hk with ht | ht
  · subst ht
    have hq0' : q.get 0 = if p.get 0 = none then none else some (.file path flags) := by
      simpa [STDIN_FILENO, hl0] using hq0
    have hq1' : q.get 1 = p.get 1 := by
      simpa [STDIN_FILENO, STDOUT_FILENO] using hq1
    have hqx : ∀ y, y ≠ 0 → q.get y = p.get y := by
      intro y hy
      simpa [STDIN_FILENO, hy] using hq y
    simp only [after_redirections, STDIN_FILENO, STDOUT_FILENO, hlast, hq0', hq1']
    by_cases hx0 : x = 0
    · subst hx0
      cases p.get 0 <;> cases last_redirect 0 rest <;> simp
    · by_cases hx1 : x = 1
      · subst hx1
        cases p.get 0 <;> cases p.get 1 <;> cases last_redirect 1 rest <;> simp
      · simp [hx0, hx1, hqx x hx0]
  · subst ht
    have hq0' : q.get 0 = p.get 0 := by
      simpa [STDIN_FILENO, STDOUT_FILENO] using hq0
    have hq1' : q.get 1 =
        if p.get 0 ≠ none ∧ p.get 1 = none then none else some (.file path flags) := by
      simpa [STDOUT_FILENO, hl1] using hq1
    have hqx : ∀ y, y ≠ 1 → q.get y = p.get y := by
      intro y hy
      simpa [STDOUT_FILENO, hy] using hq y
    simp only [after_redirections, STDIN_FILENO, STDOUT_FILENO, hlast, hq0', hq1']
    by_cases hx0 : x = 0
    · subst hx0
      cases p.get 0 <;> cases last_redirect 0 rest <;> simp
    · by_cases hx1 : x = 1
      · subst hx1
        cases p.get 0 <;> cases p.get 1 <;> cases last_redirect 1 rest <;> simp
      · simp [hx0, hx1, hqx x hx1]

/-- The joint effect of all the redirections of a token list whose opens succeed: the loop
ends normally, logs one `open` per operator in order, and leaves the descriptors as
`after_redirections` tells. -/
theorem redirect_all_effect (env : Env) (toks : List String) :
    ∀ (p : Proc), opens_succeed env toks = true →
      ∃ p1, redirect_all env toks p = .ok p1 ∧
        p1.log = p.log ++ (redirections toks).map (fun r => Event.open_call r.2.2 r.1) ∧
        ∀ x, p1.fds.get x = after_redirections p.fds toks x := by
  induction toks with
  | nil =>
    intro p _
    refine ⟨p, rfl, by simp [redirections], ?_⟩
    intro x
    simp only [after_redirections, last_redirect]
    split
    · next h => subst h; split <;> simp_all
    · split
      · next h => subst h; split <;> simp_all
      · rfl
  | cons tok rest ih =>
    intro p hs
    cases hk : redirect_kind tok with
    | none =>
      have hs' : opens_succeed env rest = true := by
        simpa [opens_succeed, redirections, hk] using hs
      obtain ⟨p1, h1, hlog, hfds⟩ := ih p hs'
      refine ⟨p1, ?_, ?_, ?_⟩
      · simp [redirect_all, hk, h1]
      · simp [redirections, hk, hlog]
      · intro x
        rw [hfds x, after_redirections_skip _ _ _ hk]
    | some ft =>
      obtain ⟨flags, target⟩ := ft
      simp only [opens_succeed, redirections, hk, List.all_cons, Bool.and_eq_true] at hs
      obtain ⟨hhead, hrest⟩ := hs
      cases hop : rest.head? with
      | none => simp [hop] at hhead
      | some path =>
        simp only [hop] at hhead
        obtain ⟨q, hq, hqlog, hqfds⟩ := redirect_step env p path flags target hhead
        obtain ⟨p1, h1, hlog, hfds⟩ := ih q hrest
        refine ⟨p1, ?_, ?_, ?_⟩
        · simp [redirect_all, hk, hop, hq, h1]
        · simp [redirections, hk, hop, hlog, hqlog]
        · intro x
          rw [hfds x]
          exact after_redirections_step p.fds q.fds tok rest flags target path hk hop hqfds x

/-! ## Statements on `handle_redirection` -/

theorem Args.at_zero_mark (toks : List String) :
    Args.at (mark_redirections toks ++ [none]) 0 =
      (toks.takeWhile (fun tok => !is_redirect tok)).head? := by
  cases toks with
  | nil => rfl
  | cons t ts =>
    by_cases h : is_redirect t = true
    · simp [mark_redirections, Args.at, h]
    · simp [mark_redirections, Args.at, h]

/-- What `execvp` receives, for every token list: when each operator is followed by an
operand and every `open` (hence every `dup2`) succeeds, the child reaches `execvp` and the
argument vector it passes is the token list cut at the first operator token. -/
theorem redirection_truncates_argv (env : Env) (toks : List String) (p : Proc)
    (hops : opens_succeed env toks = true) :
    ∃ p1, redirect_and_exec env (toks.map some ++ [none]) p =
      .execvp (toks.takeWhile (fun tok => !is_redirect tok)).head?
        (toks.takeWhile (fun tok => !is_redirect tok)) p1 := by
  obtain ⟨p1, h1, _, _⟩ := redirect_all_effect env toks p hops
  refine ⟨p1, ?_⟩
  simp only [redirect_and_exec, handle_redirection_eq, h1, Args.argv_mark, Args.at_zero_mark]

theorem redirection_truncates_argv_witness :
    opens_succeed env_ok ["sort", "-r", "<", "in"] = true ∧
    ∃ p1, redirect_and_exec env_ok (["sort", "-r", "<", "in"].map some ++ [none]) std_proc =
      .execvp (["sort", "-r", "<", "in"].takeWhile (fun tok => !is_redirect tok)).head?
        (["sort", "-r", "<", "in"].takeWhile (fun tok => !is_redirect tok)) p1 :=
  ⟨by decide, redirection_truncates_argv env_ok ["sort", "-r", "<", "in"] std_proc (by decide)⟩

/-- C3: on `sort < in -r` the operator has its operand and the open succeeds, yet `execvp`
receives `["sort"]`: the token `-r`, which follows the redirection and is no part of it, is
lost, where the list with operator and operand deleted is `["sort", "-r"]`. -/
theorem redirection_drops_following_tokens :
    opens_succeed env_ok ["sort", "<", "in", "-r"] = true ∧
    (redirect_and_exec env_ok (parse_input "sort < in -r") std_proc).argv? = some ["sort"] ∧
    strip_redirections ["sort", "<", "in", "-r"] = ["sort", "-r"] ∧
    (redirect_and_exec env_ok (parse_input "sort < in -r") std_proc).argv? ≠
      some (strip_redirections ["sort", "<", "in", "-r"]) := by
  decide

/-- C4, with the condition it needs: when each operator is followed by an operand and every
`open` succeeds, when descriptor 0 is open on entry if the list has a `<`, and when
descriptor 1 is open on entry (or descriptor 0 is closed as well) if the list has a `>` or
`>>`, `handle_redirection` returns, standard output is then on the file named by the
operand of the last `>` or `>>` (opened with that operator's flags) if there is one and is
unchanged otherwise, standard input likewise for the last `<`, and `open` was called once
for every operator of the list, in order, the earlier ones included.  What is attached on
entry is arbitrary, a pipe end included. -/
theorem redirection_last_wins (env : Env) (toks : List String) (p : Proc)
    (hops : opens_succeed env toks = true)
    (hin : last_redirect STDIN_FILENO toks ≠ none → p.fds.get STDIN_FILENO ≠ none)
    (hout : last_redirect STDOUT_FILENO toks ≠ none →
      p.fds.get STDOUT_FILENO ≠ none ∨ p.fds.get STDIN_FILENO = none) :
    ∃ args1 p1, handle_redirection env (toks.map some ++ [none]) p = .done (args1, p1) ∧
      p1.fds.get STDOUT_FILENO =
        (match last_redirect STDOUT_FILENO toks with
         | some r => some r
         | none => p.fds.get STDOUT_FILENO) ∧
      p1.fds.get STDIN_FILENO =
        (match last_redirect STDIN_FILENO toks with
         | some r => some r
         | none => p.fds.get STDIN_FILENO) ∧
      p1.log = p.log ++ (redirections toks).map (fun r => Event.open_call r.2.2 r.1) := by
  obtain ⟨p1, hr, hlog, hfds⟩ := redirect_all_effect env toks p hops
  refine ⟨mark_redirections toks ++ [none], p1, ?_, ?_, ?_, hlog⟩
  · simp only [handle_redirection_eq, hr]
  · rw [hfds STDOUT_FILENO]
    simp only [after_redirections, STDIN_FILENO, STDOUT_FILENO] at hout ⊢
    cases hl : last_redirect 1 toks with
    | none =>
      by_cases hc : p.fds.get 0 ≠ none ∧ p.fds.get 1 = none
      · simp [hc]
      · simp [hc]
    | some r =>
      have := hout (by rw [hl]; simp)
      have hc : ¬ (p.fds.get 0 ≠ none ∧ p.fds.get 1 = none) := by
        rintro ⟨a, b⟩
        rcases this with h | h
        · exact h b
        · exact a h
      simp [hc]
  · rw [hfds STDIN_FILENO]
    simp only [after_redirections, STDIN_FILENO] at hin ⊢
    cases hl : last_redirect 0 toks with
    | none =>
      by_cases hc : p.fds.get 0 = none
      · simp [hc]
      · simp [hc]
    | some r =>
      have := hin (by rw [hl]; simp)
      simp [this]

theorem redirection_last_wins_witness :
    opens_succeed env_ok ["tee", ">", "a", "<", "c", ">>", "b"] = true ∧
    (last_redirect STDIN_FILENO ["tee", ">", "a", "<", "c", ">>", "b"] ≠ none →
      middle_proc.fds.get STDIN_FILENO ≠ none) ∧
    (last_redirect STDOUT_FILENO ["tee", ">", "a", "<", "c", ">>", "b"] ≠ none →
      middle_proc.fds.get STDOUT_FILENO ≠ none ∨ middle_proc.fds.get STDIN_FILENO = none) ∧
    ∃ args1 p1, handle_redirection env_ok
        (["tee", ">", "a", "<", "c", ">>", "b"].map some ++ [none]) middle_proc
          = .done (args1, p1) ∧
      p1.fds.get STDOUT_FILENO =
        (match last_redirect STDOUT_FILENO ["tee", ">", "a", "<", "c", ">>", "b"] with
         | some r => some r
         | none => middle_proc.fds.get STDOUT_FILENO) ∧
      p1.fds.get STDIN_FILENO =
        (match last_redirect STDIN_FILENO ["tee", ">", "a", "<", "c", ">>", "b"] with
         | some r => some r
         | none => middle_proc.fds.get STDIN_FILENO) ∧
      p1.log = middle_proc.log ++
        (redirections ["tee", ">", "a", "<", "c", ">>", "b"]).map
          (fun r => Event.open_call r.2.2 r.1) :=
  ⟨by decide, by decide, by decide,
    redirection_last_wins env_ok ["tee", ">", "a", "<", "c", ">>", "b"] middle_proc
      (by decide) (by decide) (by decide)⟩

/-- C4, as stated, fails on `cmd > out` when descriptor 1 is closed on entry (and
descriptor 0 is open): the operator has its operand and `open` and `dup2` succeed, since
`handle_redirection` returns, but `open` returns 1, `dup2(1, 1)` changes nothing and
`close(1)` closes the file again, so standard output ends closed, not on `out`. -/
theorem redirection_last_wins_counterexample :
    opens_succeed env_ok ["cmd", ">", "out"] = true ∧
    last_redirect STDOUT_FILENO ["cmd", ">", "out"] = some (.file "out" .wr_creat_trunc) ∧
    ∃ args1 p1, handle_redirection env_ok (parse_input "cmd > out") no_stdout_proc
        = .done (args1, p1) ∧
      p1.fds.get STDOUT_FILENO = none ∧
      p1.fds.get STDOUT_FILENO ≠ last_redirect STDOUT_FILENO ["cmd", ">", "out"] :=
  ⟨by decide, by decide, [some "cmd", none, some "out", none],
    ⟨[some (.inherited 0), none, some (.inherited 2)],
      [.open_call (some "out") .wr_creat_trunc]⟩,
    by decide, by decide, by decide⟩

/-- The conditions on the descriptors open on entry are the weakest ones: when every `open`
succeeds and a standard stream ends on the file of its last operator, the condition for
that stream held on entry. -/
theorem last_redirect_conditions_needed (env : Env) (toks : List String) (p : Proc)
    (hops : opens_succeed env toks = true) (args1 : Args) (p1 : Proc)
    (hrun : handle_redirection env (toks.map some ++ [none]) p = .done (args1, p1)) :
    (p1.fds.get STDOUT_FILENO =
        (match last_redirect STDOUT_FILENO toks with
         | some r => some r
         | none => p.fds.get STDOUT_FILENO) →
      last_redirect STDOUT_FILENO toks ≠ none →
      p.fds.get STDOUT_FILENO ≠ none ∨ p.fds.get STDIN_FILENO = none) ∧
    (p1.fds.get STDIN_FILENO =
        (match last_redirect STDIN_FILENO toks with
         | some r => some r
         | none => p.fds.get STDIN_FILENO) →
      last_redirect STDIN_FILENO toks ≠ none → p.fds.get STDIN_FILENO ≠ none) := by
  obtain ⟨q, hr, _, hfds⟩ := redirect_all_effect env toks p hops
  rw [handle_redirection_eq, hr] at hrun
  simp only [Ret.done.injEq, Prod.mk.injEq] at hrun
  obtain ⟨_, hq⟩ := hrun
  subst hq
  constructor
  · intro hout hsome
    rw [hfds STDOUT_FILENO] at hout
    simp only [after_redirections, STDIN_FILENO, STDOUT_FILENO] at hout hsome ⊢
    cases hl : last_redirect 1 toks with
    | none => exact absurd hl hsome
    | some r =>
      rw [hl] at hout
      by_cases h1 : p.fds.get 1 = none
      · by_cases h0 : p.fds.get 0 = none
        · exact Or.inr h0
        · simp [h0, h1] at hout
      · exact Or.inl h1
  · intro hin hsome
    rw [hfds STDIN_FILENO] at hin
    simp only [after_redirections, STDIN_FILENO] at hin hsome ⊢
    cases hl : last_redirect 0 toks with
    | none => exact absurd hl hsome
    | some r =>
      rw [hl] at hin
      intro h0
      simp [h0] at hin

theorem last_redirect_conditions_needed_witness :
    opens_succeed env_ok ["cmd", ">", "out"] = true ∧
    ((∃ args1 p1, handle_redirection env_ok (["cmd", ">", "out"].map some ++ [none])
        no_stdin_proc = .done (args1, p1) ∧
      p1.fds.get STDOUT_FILENO = some (.file "out" .wr_creat_trunc))) ∧
    (no_stdin_proc.fds.get STDOUT_FILENO ≠ none ∨ no_stdin_proc.fds.get STDIN_FILENO = none) :=
  ⟨by decide,
    ⟨[some "cmd", none, some "out", none],
      ⟨[none, some (.file "out" .wr_creat_trunc), some (.inherited 2)],
        [.open_call (some "out") .wr_creat_trunc]⟩, by decide, by decide⟩,
    (last_redirect_conditions_needed env_ok ["cmd", ">", "out"] no_stdin_proc
      (by decide) [some "cmd", none, some "out", none]
      ⟨[none, some (.file "out" .wr_creat_trunc), some (.inherited 2)],
        [.open_call (some "out") .wr_creat_trunc]⟩ (by decide)).1 (by decide) (by decide)⟩

/-! ## Pipe creation -/

theorem PipesInv.nil (t0 : FdTable) : PipesInv t0 [] t0 := by
  constructor
  · intro k pr h
    simp at h
  · intro x _
    rfl

theorem PipesInv.not_mem {t0 t : FdTable} {pipes : List (Nat × Nat)}
    (h : PipesInv t0 pipes t) (x : Nat) (hx : t.get x = none) :
    ∀ pr ∈ pipes, x ≠ pr.1 ∧ x ≠ pr.2 := by
  intro pr hpr
  obtain ⟨k, hk⟩ := List.mem_iff_getElem?.mp hpr
  obtain ⟨h1, h2, _, _⟩ := h.1 k pr hk
  constructor
  · intro he; rw [he, h1] at hx; cases hx
  · intro he; rw [he, h2] at hx; cases hx

theorem PipesInv.not_mem_of_open {t0 t : FdTable} {pipes : List (Nat × Nat)}
    (h : PipesInv t0 pipes t) (x : Nat) (hx : t0.get x ≠ none) :
    ∀ pr ∈ pipes, x ≠ pr.1 ∧ x ≠ pr.2 := by
  intro pr hpr
  obtain ⟨k, hk⟩ := List.mem_iff_getElem?.mp hpr
  obtain ⟨_, _, h3, h4⟩ := h.1 k pr hk
  constructor
  · intro he; rw [he] at hx; exact hx h3
  · intro he; rw [he] at hx; exact hx h4

theorem PipesInv.step {t0 t : FdTable} {pipes : List (Nat × Nat)} (h : PipesInv t0 pipes t) :
    PipesInv t0 (pipes ++ [(sys_pipe ⟨t, []⟩ pipes.length).1])
      (sys_pipe ⟨t, []⟩ pipes.length).2.fds := by
  have hrd : t.get t.lowestFree = none := t.get_lowestFree
  have hwr1 : (t.put t.lowestFree (.pipe_rd pipes.length)).get
      (t.put t.lowestFree (.pipe_rd pipes.length)).lowestFree = none := FdTable.get_lowestFree _
  have hne : (t.put t.lowestFree (.pipe_rd pipes.length)).lowestFree ≠ t.lowestFree := by
    apply FdTable.lowestFree_ne
    rw [FdTable.get_put, if_pos rfl]
    simp
  have hwr : t.get (t.put t.lowestFree (.pipe_rd pipes.length)).lowestFree = none := by
    rw [FdTable.get_put, if_neg hne] at hwr1
    exact hwr1
  simp only [sys_pipe]
  generalize hrdv : t.lowestFree = rd at *
  generalize hwrv : (t.put rd (.pipe_rd pipes.length)).lowestFree = wr at *
  have hget : ∀ x, ((t.put rd (.pipe_rd pipes.length)).put wr (.pipe_wr pipes.length)).get x =
      if x = wr then some (.pipe_wr pipes.length)
      else if x = rd then some (.pipe_rd pipes.length) else t.get x := by
    intro x
    rw [FdTable.get_put, FdTable.get_put]
  have hnrd := h.not_mem rd hrd
  have hnwr := h.not_mem wr hwr
  constructor
  · intro k pr hk
    rw [List.getElem?_append] at hk
    by_cases hlt : k < pipes.length
    · rw [if_pos hlt] at hk
      obtain ⟨h1, h2, h3, h4⟩ := h.1 k pr hk
      have hm : pr ∈ pipes := List.getElem?_mem hk
      have a := hnrd pr hm
      have b := hnwr pr hm
      refine ⟨?_, ?_, h3, h4⟩
      · rw [hget, if_neg (fun e => b.1 e.symm), if_neg (fun e => a.1 e.symm), h1]
      · rw [hget, if_neg (fun e => b.2 e.symm), if_neg (fun e => a.2 e.symm), h2]
    · rw [if_neg hlt] at hk
      have hk0 : k = pipes.length := by
        by_contra hc
        have : k - pipes.length ≠ 0 := by omega
        obtain ⟨m, hm⟩ := Nat.exists_eq_succ_of_ne_zero this
        rw [hm] at hk
        simp at hk
      subst hk0
      simp at hk
      subst hk
      refine ⟨?_, ?_, ?_, ?_⟩
      · show _ = some (Res.pipe_rd pipes.length)
        rw [hget, if_neg (fun e => hne e.symm), if_pos rfl]
      · show _ = some (Res.pipe_wr pipes.length)
        rw [hget, if_pos rfl]
      · show t0.get rd = none
        rw [← h.2 rd hnrd]; exact hrd
      · show t0.get wr = none
        rw [← h.2 wr hnwr]; exact hwr
  · intro x hx
    have hxn : ∀ pr ∈ pipes, x ≠ pr.1 ∧ x ≠ pr.2 :=
      fun pr hpr => hx pr (List.mem_append_left _ hpr)
    have hx2 := hx (rd, wr) (by simp)
    rw [hget, if_neg hx2.2, if_neg hx2.1]
    exact h.2 x hxn

theorem sys_pipe_fds (p : Proc) (k : Nat) :
    (sys_pipe p k).1 = (sys_pipe ⟨p.fds, []⟩ k).1 ∧
    (sys_pipe p k).2.fds = (sys_pipe ⟨p.fds, []⟩ k).2.fds ∧
    (sys_pipe p k).2.log = p.log :=
  ⟨rfl, rfl, rfl⟩

theorem create_pipes_ok (env : Env) (t0 : FdTable) :
    ∀ (left i : Nat) (pipes : List (Nat × Nat)) (p : Proc), pipes.length = i →
      (∀ k, i ≤ k → k < i + left → env.pipe_ok k = true) → PipesInv t0 pipes p.fds →
      ∃ pipes1 p1, create_pipes env left i pipes p = .ok (pipes1, p1) ∧
        pipes1.length = i + left ∧ p1.log = p.log ∧ PipesInv t0 pipes1 p1.fds := by
  intro left
  induction left with
  | zero =>
    intro i pipes p hlen _ hinv
    exact ⟨pipes, p, rfl, by simpa using hlen, rfl, hinv⟩
  | succ left ih =>
    intro i pipes p hlen hok hinv
    have hoki : env.pipe_ok i = true := hok i (Nat.le_refl _) (by omega)
    obtain ⟨hp1, hp2, hp3⟩ := sys_pipe_fds p i
    have hstep : PipesInv t0 (pipes ++ [(sys_pipe p i).1]) (sys_pipe p i).2.fds := by
      have := hinv.step
      rw [hlen] at this
      rw [hp1, hp2]
      exact this
    obtain ⟨pipes1, p1, h1, h2, h3, h4⟩ :=
      ih (i + 1) (pipes ++ [(sys_pipe p i).1]) (sys_pipe p i).2 (by simp [hlen])
        (fun k hk1 hk2 => hok k (by omega) (by omega)) hstep
    refine ⟨pipes1, p1, ?_, by omega, by rw [h3, hp3], h4⟩
    simp only [create_pipes, hoki, if_true]
    exact h1

theorem close_pipes_log (pipes : List (Nat × Nat)) :
    ∀ p : Proc, (close_pipes pipes p).log = p.log := by
  induction pipes with
  | nil => intro p; rfl
  | cons pr rest ih =>
    intro p
    simp only [close_pipes, List.foldl_cons] at ih ⊢
    rw [ih]
    rfl

theorem close_pipes_get (pipes : List (Nat × Nat)) :
    ∀ (p : Proc) (x : Nat), (close_pipes pipes p).fds.get x =
      if pipes.any (fun pr => decide (x = pr.1) || decide (x = pr.2)) then none
      else p.fds.get x := by
  induction pipes with
  | nil => intro p x; rfl
  | cons pr rest ih =>
    intro p x
    simp only [close_pipes, List.foldl_cons] at ih ⊢
    rw [ih]
    simp only [sys_close, FdTable.get_close, List.any_cons]
    by_cases h1 : x = pr.1
    · simp [h1]
    · by_cases h2 : x = pr.2
      · simp [h2]
      · have e1 : decide (x = pr.1) = false := decide_eq_false h1
        have e2 : decide (x = pr.2) = false := decide_eq_false h2
        simp only [e1, e2, Bool.false_or, if_neg h1, if_neg h2]

/-! ## A child of the pipeline -/

theorem sys_dup2_ok (p : Proc) (oldfd newfd : Nat) (r : Res) (h : p.fds.get oldfd = some r)
    (hne : oldfd ≠ newfd) :
    sys_dup2 p oldfd newfd = some { p with fds := p.fds.put newfd r } := by
  simp [sys_dup2, h, hne]

theorem redirect_all_none (env : Env) (toks : List String)
    (h : ∀ tok ∈ toks, is_redirect tok = false) :
    ∀ p, redirect_all env toks p = .ok p := by
  induction toks with
  | nil => intro p; rfl
  | cons t ts ih =>
    intro p
    have ht : redirect_kind t = none := by
      have := h t (List.mem_cons_self _ _)
      simpa [is_redirect] using this
    simp only [redirect_all, ht]
    exact ih (fun tok hm => h tok (List.mem_cons_of_mem _ hm)) p

theorem mark_redirections_none (toks : List String)
    (h : ∀ tok ∈ toks, is_redirect tok = false) :
    mark_redirections toks = toks.map some := by
  unfold mark_redirections
  apply List.map_congr_left
  intro tok hm
  simp [h tok hm]

theorem redirect_and_exec_plain (env : Env) (toks : List String) (c : Proc)
    (h : ∀ tok ∈ toks, is_redirect tok = false) :
    redirect_and_exec env (toks.map some ++ [none]) c = .execvp toks.head? toks c := by
  simp only [redirect_and_exec, handle_redirection_eq, redirect_all_none env toks h,
    mark_redirections_none toks h, Args.argv_map_some, Args.at_zero_map]

theorem pipes_any_false (pipes : List (Nat × Nat)) (x : Nat) :
    pipes.any (fun pr => decide (x = pr.1) || decide (x = pr.2)) = false ↔
      ∀ pr ∈ pipes, x ≠ pr.1 ∧ x ≠ pr.2 := by
  rw [← Bool.not_eq_true, List.any_eq_true]
  constructor
  · intro h pr hpr
    constructor
    · intro e; exact h ⟨pr, hpr, by simp [e]⟩
    · intro e; exact h ⟨pr, hpr, by simp [e]⟩
  · rintro h ⟨pr, hpr, hx⟩
    have := h pr hpr
    simp [this.1, this.2] at hx

theorem pipeline_child_wiring (env : Env) (t0 t : FdTable) (lg : List Event)
    (pipes : List (Nat × Nat)) (n i : Nat) (toks : List String)
    (hinv : PipesInv t0 pipes t) (hlen : pipes.length = n - 1) (hi : i < n)
    (h0 : t0.get STDIN_FILENO ≠ none) (h1 : t0.get STDOUT_FILENO ≠ none)
    (hfresh : t0.noChannelEnds = true)
    (hno : ∀ tok ∈ toks, is_redirect tok = false) :
    ∃ fds, pipeline_child env pipes n i (toks.map some ++ [none]) ⟨t, lg⟩
        = .execvp toks.head? toks ⟨fds, []⟩ ∧
      fds.get STDIN_FILENO = (if 0 < i then some (.pipe_rd (i - 1)) else t0.get STDIN_FILENO) ∧
      fds.get STDOUT_FILENO =
        (if i < n - 1 then some (.pipe_wr i) else t0.get STDOUT_FILENO) ∧
      ∀ x, x ≠ STDIN_FILENO → x ≠ STDOUT_FILENO → ∀ r, fds.get x = some r →
        r.isChannelEnd = false := by
  have hm0 := hinv.not_mem_of_open STDIN_FILENO h0
  have hm1 := hinv.not_mem_of_open STDOUT_FILENO h1
  have ht0 : t.get STDIN_FILENO = t0.get STDIN_FILENO := hinv.2 _ hm0
  have ht1 : t.get STDOUT_FILENO = t0.get STDOUT_FILENO := hinv.2 _ hm1
  -- the first `dup2`
  have hA : ∃ ta, (if 0 < i then sys_dup2 ⟨t, []⟩ (pipes.getD (i - 1) (0, 0)).1 STDIN_FILENO
        else some ⟨t, []⟩) = some ⟨ta, []⟩ ∧
      ∀ x, ta.get x = if x = STDIN_FILENO then
        (if 0 < i then some (.pipe_rd (i - 1)) else t0.get STDIN_FILENO) else t.get x := by
    by_cases hpos : 0 < i
    · have hlt : i - 1 < pipes.length := by omega
      have hget : pipes[i - 1]? = some pipes[i - 1] := List.getElem?_eq_getElem hlt
      have hD : pipes.getD (i - 1) (0, 0) = pipes[i - 1] := by
        simp [List.getD_eq_getElem?_getD, hget]
      obtain ⟨a, _, _, _⟩ := hinv.1 (i - 1) _ hget
      have hne := (hm0 _ (List.getElem?_mem hget)).1
      refine ⟨t.put STDIN_FILENO (.pipe_rd (i - 1)), ?_, ?_⟩
      · rw [if_pos hpos, hD, sys_dup2_ok ⟨t, []⟩ _ _ _ a (fun e => hne e.symm)]
      · intro x
        rw [FdTable.get_put, if_pos hpos]
    · refine ⟨t, by rw [if_neg hpos], ?_⟩
      intro x
      rw [if_neg hpos]
      by_cases hx : x = STDIN_FILENO
      · rw [if_pos hx, hx, ht0]
      · rw [if_neg hx]
  obtain ⟨ta, hAeq, hAget⟩ := hA
  -- the second `dup2`
  have hB : ∃ tb, (if i < n - 1 then sys_dup2 ⟨ta, []⟩ (pipes.getD i (0, 0)).2 STDOUT_FILENO
        else some ⟨ta, []⟩) = some ⟨tb, []⟩ ∧
      ∀ x, tb.get x = if x = STDOUT_FILENO then
        (if i < n - 1 then some (.pipe_wr i) else t0.get STDOUT_FILENO) else ta.get x := by
    by_cases hlast : i < n - 1
    · have hlt : i < pipes.length := by omega
      have hget : pipes[i]? = some pipes[i] := List.getElem?_eq_getElem hlt
      have hD : pipes.getD i (0, 0) = pipes[i] := by
        simp [List.getD_eq_getElem?_getD, hget]
      obtain ⟨_, b, _, _⟩ := hinv.1 i _ hget
      have hne0 := (hm0 _ (List.getElem?_mem hget)).2
      have hne1 := (hm1 _ (List.getElem?_mem hget)).2
      have b' : ta.get pipes[i].2 = some (.pipe_wr i) := by
        rw [hAget, if_neg (fun e => hne0 e.symm), b]
      refine ⟨ta.put STDOUT_FILENO (.pipe_wr i), ?_, ?_⟩
      · rw [if_pos hlast, hD, sys_dup2_ok ⟨ta, []⟩ _ _ _ b' (fun e => hne1 e.symm)]
      · intro x
        rw [FdTable.get_put, if_pos hlast]
    · refine ⟨ta, by rw [if_neg hlast], ?_⟩
      intro x
      rw [if_neg hlast]
      by_cases hx : x = STDOUT_FILENO
      · rw [if_pos hx, hx, hAget, if_neg (by decide), ht1]
      · rw [if_neg hx]
  obtain ⟨tb, hBeq, hBget⟩ := hB
  have hrun : pipeline_child env pipes n i (toks.map some ++ [none]) ⟨t, lg⟩ =
      .execvp toks.head? toks (close_pipes pipes ⟨tb, []⟩) := by
    simp only [pipeline_child, hAeq, hBeq]
    exact redirect_and_exec_plain env toks _ hno
  have hlog := close_pipes_log pipes ⟨tb, []⟩
  have hfinal : ∀ x, (close_pipes pipes ⟨tb, []⟩).fds.get x =
      if pipes.any (fun pr => decide (x = pr.1) || decide (x = pr.2)) then none
      else tb.get x := close_pipes_get pipes ⟨tb, []⟩
  cases hc : close_pipes pipes ⟨tb, []⟩ with
  | mk fds l =>
    rw [hc] at hrun hlog hfinal
    simp only at hlog hfinal
    subst hlog
    refine ⟨fds, hrun, ?_, ?_, ?_⟩
    · rw [hfinal, (pipes_any_false pipes _).mpr hm0, hBget, if_neg (by decide), hAget,
        if_pos rfl]
      rfl
    · rw [hfinal, (pipes_any_false pipes _).mpr hm1, hBget, if_pos rfl]
      rfl
    · intro x hx0 hx1 r hr
      rw [hfinal] at hr
      by_cases hany : pipes.any (fun pr => decide (x = pr.1) || decide (x = pr.2)) = true
      · rw [if_pos hany] at hr; cases hr
      · rw [if_neg hany, hBget, if_neg hx1, hAget, if_neg hx0] at hr
        have hnm := (pipes_any_false pipes x).mp (by simpa using hany)
        rw [hinv.2 x hnm] at hr
        exact FdTable.noChannelEnds_get t0 hfresh x r hr

/-! ## The fork loop -/

theorem spawn_loop_ok (env : Env) (pipes : List (Nat × Nat)) (n : Nat) (p : Proc) :
    ∀ (rest : List String) (i : Nat) (pids : List Nat) (cs : List Child),
      (∀ j, j < rest.length → (env.fork (i + j)).isSome = true) →
      spawn_loop env pipes n p rest i pids cs = .ok
        (pids ++ (rest.enumFrom i).map (fun jc => (env.fork jc.1).getD 0),
         cs ++ (rest.enumFrom i).map (fun jc =>
          ⟨jc.1, (env.fork jc.1).getD 0,
            pipeline_child env pipes n jc.1 (parse_input jc.2) p⟩)) := by
  intro rest
  induction rest with
  | nil => intro i pids cs _; simp [spawn_loop]
  | cons cmd rest ih =>
    intro i pids cs hf
    have h0 := hf 0 (by simp)
    rw [Nat.add_zero] at h0
    obtain ⟨pid, hpid⟩ := Option.isSome_iff_exists.mp h0
    have hrest : ∀ j, j < rest.length → (env.fork (i + 1 + j)).isSome = true := by
      intro j hj
      have := hf (j + 1) (by simpa using hj)
      rwa [show i + (j + 1) = i + 1 + j by omega] at this
    simp only [spawn_loop, hpid, List.enumFrom_cons, List.map_cons, Option.getD_some]
    rw [ih (i + 1) _ _ hrest]
    simp

/-! ## The pipeline when every `pipe` and `fork` succeeds -/

theorem execute_pipeline_eq (env : Env) (commands : List String) (background : Bool)
    (p : Proc) (hN : 2 ≤ commands.length)
    (hpipe : ∀ k, k < commands.length - 1 → env.pipe_ok k = true)
    (hfork : ∀ i, i < commands.length → (env.fork i).isSome = true) :
    ∃ pipes p1, create_pipes env (commands.length - 1) 0 [] p = .ok (pipes, p1) ∧
      PipesInv p.fds pipes p1.fds ∧ pipes.length = commands.length - 1 ∧
      p1.log = p.log ∧
      execute_pipeline env commands background p =
        if !background then
          ⟨wait_loop env commands.length
              ((commands.enumFrom 0).map (fun jc => (env.fork jc.1).getD 0)) 0
              (close_pipes pipes p1),
            none,
            (commands.enumFrom 0).map (fun jc =>
              ⟨jc.1, (env.fork jc.1).getD 0,
                pipeline_child env pipes commands.length jc.1 (parse_input jc.2) p1⟩)⟩
        else
          ⟨(close_pipes pipes p1).emit (.background_pipeline
              ((commands.enumFrom 0).map (fun jc => (env.fork jc.1).getD 0)).head?),
            none,
            (commands.enumFrom 0).map (fun jc =>
              ⟨jc.1, (env.fork jc.1).getD 0,
                pipeline_child env pipes commands.length jc.1 (parse_input jc.2) p1⟩)⟩ := by
  obtain ⟨pipes, p1, hc, hlen, hlog, hinv⟩ :=
    create_pipes_ok env p.fds (commands.length - 1) 0 [] p rfl
      (fun k _ hk => hpipe k (by omega)) (PipesInv.nil p.fds)
  refine ⟨pipes, p1, hc, hinv, by omega, hlog, ?_⟩
  have hs := spawn_loop_ok env pipes commands.length p1 commands 0 [] []
    (fun j hj => by rw [Nat.zero_add]; exact hfork j hj)
  have hne : ¬ commands.length = 1 := by omega
  simp only [execute_pipeline, hne, if_false, hc, hs, List.nil_append]

/-- C1, with the condition it needs: in a pipeline of `N` segments, `2 ≤ N ≤ MAX_PIPES`,
where every `pipe` and `fork` succeeds, no segment holds a redirection operator, and the
interpreter's descriptors 0 and 1 are open when `execute_pipeline` is called (and it holds
no channel end before the call), `N` children are created in segment order, and the child
of segment `i` (0-indexed here) reaches `execvp` on its tokens with descriptor 0 on the
read end of channel `i - 1` when `i > 0` and on the interpreter's own standard input when
`i = 0`, descriptor 1 on the write end of channel `i` when `i < N - 1` and on the
interpreter's own standard output when `i = N - 1`, and no other descriptor open on an end
of any channel. -/
theorem pipeline_wiring (env : Env) (commands : List String) (background : Bool) (p : Proc)
    (hN : 2 ≤ commands.length) (_hM : commands.length ≤ MAX_PIPES)
    (hpipe : ∀ k, k < commands.length - 1 → env.pipe_ok k = true)
    (hfork : ∀ i, i < commands.length → (env.fork i).isSome = true)
    (hnoredir : ∀ cmd ∈ commands, ∀ tok ∈ (parse_input cmd).argv, is_redirect tok = false)
    (h0 : p.fds.get STDIN_FILENO ≠ none) (h1 : p.fds.get STDOUT_FILENO ≠ none)
    (hfresh : p.fds.noChannelEnds = true) :
    (execute_pipeline env commands background p).children.length = commands.length ∧
    ∀ i cmd, commands[i]? = some cmd →
      ∃ pid fds, env.fork i = some pid ∧
        (execute_pipeline env commands background p).children[i]? =
          some ⟨i, pid,
            .execvp (parse_input cmd).argv.head? (parse_input cmd).argv ⟨fds, []⟩⟩ ∧
        fds.get STDIN_FILENO =
          (if 0 < i then some (.pipe_rd (i - 1)) else p.fds.get STDIN_FILENO) ∧
        fds.get STDOUT_FILENO =
          (if i < commands.length - 1 then some (.pipe_wr i)
           else p.fds.get STDOUT_FILENO) ∧
        ∀ x, x ≠ STDIN_FILENO → x ≠ STDOUT_FILENO → ∀ r, fds.get x = some r →
          r.isChannelEnd = false := by
  obtain ⟨pipes, p1, _, hinv, hlen, _, heq⟩ :=
    execute_pipeline_eq env commands background p hN hpipe hfork
  have hch : (execute_pipeline env commands background p).children =
      (commands.enumFrom 0).map (fun jc =>
        ⟨jc.1, (env.fork jc.1).getD 0,
          pipeline_child env pipes commands.length jc.1 (parse_input jc.2) p1⟩) := by
    rw [heq]
    cases background <;> rfl
  rw [hch]
  refine ⟨by simp, ?_⟩
  intro i cmd hcmd
  have hi : i < commands.length := by
    by_contra hc
    rw [List.getElem?_eq_none (Nat.le_of_not_lt hc)] at hcmd
    cases hcmd
  obtain ⟨pid, hpid⟩ := Option.isSome_iff_exists.mp (hfork i hi)
  have hargv : (parse_input cmd).argv
      = strtok_all [' ', '\t', '\r', '\n', Char.ofNat 7] cmd.toList [] :=
    Args.argv_map_some _ _
  have hno : ∀ tok ∈ strtok_all [' ', '\t', '\r', '\n', Char.ofNat 7] cmd.toList [],
      is_redirect tok = false := by
    intro tok hm
    apply hnoredir cmd (List.getElem?_mem hcmd) tok
    rw [hargv]
    exact hm
  obtain ⟨fds, hrun, hin, hout, hother⟩ :=
    pipeline_child_wiring env p.fds p1.fds p1.log pipes commands.length i _ hinv hlen hi
      h0 h1 hfresh hno
  refine ⟨pid, fds, hpid, ?_, hin, hout, hother⟩
  rw [List.getElem?_map, List.getElem?_enumFrom, hcmd]
  simp only [Option.map_some', Nat.zero_add, hpid, Option.getD_some, hargv]
  rw [← hrun]
  rfl

theorem pipeline_wiring_witness :
    2 ≤ ["ls -l", "grep x", "wc"].length ∧ ["ls -l", "grep x", "wc"].length ≤ MAX_PIPES ∧
    (execute_pipeline env_ok ["ls -l", "grep x", "wc"] false std_proc).children.length
      = ["ls -l", "grep x", "wc"].length ∧
    ∀ i cmd, ["ls -l", "grep x", "wc"][i]? = some cmd →
      ∃ pid fds, env_ok.fork i = some pid ∧
        (execute_pipeline env_ok ["ls -l", "grep x", "wc"] false std_proc).children[i]? =
          some ⟨i, pid,
            .execvp (parse_input cmd).argv.head? (parse_input cmd).argv ⟨fds, []⟩⟩ ∧
        fds.get STDIN_FILENO =
          (if 0 < i then some (.pipe_rd (i - 1)) else std_proc.fds.get STDIN_FILENO) ∧
        fds.get STDOUT_FILENO =
          (if i < ["ls -l", "grep x", "wc"].length - 1 then some (.pipe_wr i)
           else std_proc.fds.get STDOUT_FILENO) ∧
        ∀ x, x ≠ STDIN_FILENO → x ≠ STDOUT_FILENO → ∀ r, fds.get x = some r →
          r.isChannelEnd = false :=
  ⟨by decide, by decide,
    pipeline_wiring env_ok ["ls -l", "grep x", "wc"] false std_proc (by decide) (by decide)
      (fun _ _ => rfl) (fun _ _ => rfl) (by decide) (by decide) (by decide) (by decide)⟩

/-- C1, as stated, fails on `a | b` when a standard descriptor of the interpreter is closed
on entry, though every `pipe` and `fork` succeeds and no segment holds a redirection.  With
descriptor 1 closed, `pipe` returns 1 as the read end of channel 0; the first child runs
`dup2(pipes[0][1], 1)` and then closes descriptor 1 in its close loop, so it reaches
`execvp` with standard output closed, not on the write end of channel 0.  With descriptor 0
closed, `pipe` returns 0 as the read end of channel 0; the second child's `dup2(0, 0)`
changes nothing and its close loop closes descriptor 0, so it reaches `execvp` with
standard input closed, not on the read end of channel 0. -/
theorem pipeline_wiring_counterexample :
    2 ≤ ["a", "b"].length ∧ ["a", "b"].length ≤ MAX_PIPES ∧
    (∀ k, k < ["a", "b"].length - 1 → env_ok.pipe_ok k = true) ∧
    (∀ i, i < ["a", "b"].length → (env_ok.fork i).isSome = true) ∧
    (∀ cmd ∈ ["a", "b"], ∀ tok ∈ (parse_input cmd).argv, is_redirect tok = false) ∧
    ((execute_pipeline env_ok ["a", "b"] false no_stdout_proc).children.map
      (fun c => (c.seg, c.run.stdio?))) =
        [(0, some (some (.inherited 0), none)), (1, some (some (.pipe_rd 0), none))] ∧
    ((execute_pipeline env_ok ["a", "b"] false no_stdout_proc).children.map
      (fun c => c.run.stdio?))[0]? ≠ some (some (some (.inherited 0), some (.pipe_wr 0))) ∧
    ((execute_pipeline env_ok ["a", "b"] false no_stdin_proc).children.map
      (fun c => (c.seg, c.run.stdio?))) =
        [(0, some (none, some (.pipe_wr 0))), (1, some (none, some (.inherited 1)))] ∧
    ((execute_pipeline env_ok ["a", "b"] false no_stdin_proc).children.map
      (fun c => c.run.stdio?))[1]? ≠ some (some (some (.pipe_rd 0), some (.inherited 1))) :=
  ⟨by decide, by decide, fun _ _ => rfl, fun _ _ => rfl, by decide, by decide, by decide,
    by decide, by decide⟩

theorem create_pipes_keeps (env : Env) :
    ∀ (left i : Nat) (pipes : List (Nat × Nat)) (p : Proc) (pipes1 : List (Nat × Nat))
      (p1 : Proc), create_pipes env left i pipes p = .ok (pipes1, p1) →
      ∀ (k : Nat) (pr : Nat × Nat), pipes[k]? = some pr → pipes1[k]? = some pr := by
  intro left
  induction left with
  | zero =>
    intro i pipes p pipes1 p1 h k pr hk
    simp only [create_pipes, Except.ok.injEq, Prod.mk.injEq] at h
    rw [← h.1]
    exact hk
  | succ left ih =>
    intro i pipes p pipes1 p1 h k pr hk
    simp only [create_pipes] at h
    split at h
    · apply ih _ _ _ _ _ h k pr
      have hlt : k < pipes.length := by
        by_contra hc
        rw [List.getElem?_eq_none (Nat.le_of_not_lt hc)] at hk
        cases hk
      rw [List.getElem?_append_left hlt]
      exact hk
    · cases h

theorem pipeline_child_closes_pipes (env : Env) (pipes : List (Nat × Nat)) (n i : Nat)
    (toks : List String) (parent : Proc)
    (hno : ∀ tok ∈ toks, is_redirect tok = false)
    (file : Option String) (argv : List String) (q : Proc)
    (hrun : pipeline_child env pipes n i (toks.map some ++ [none]) parent
      = .execvp file argv q) :
    ∀ pr ∈ pipes, q.fds.get pr.1 = none ∧ q.fds.get pr.2 = none := by
  simp only [pipeline_child] at hrun
  split at hrun
  · cases hrun
  · split at hrun
    · cases hrun
    · rw [redirect_and_exec_plain env toks _ hno] at hrun
      simp only [ChildEnd.execvp.injEq] at hrun
      obtain ⟨_, _, hq⟩ := hrun
      subst hq
      intro pr hpr
      constructor
      · rw [close_pipes_get, if_pos]
        exact List.any_eq_true.mpr ⟨pr, hpr, by simp⟩
      · rw [close_pipes_get, if_pos]
        exact List.any_eq_true.mpr ⟨pr, hpr, by simp⟩

/-- Open standard descriptors are needed for the wiring in every pipeline: when every `pipe`
and `fork` succeeds and no segment holds a redirection, but descriptor 0 or descriptor 1 of
the interpreter is closed on entry, some child does not reach `execvp` with its standard
streams on its channels (the second child when descriptor 0 is closed, the first one
otherwise). -/
theorem closed_stdio_breaks_wiring (env : Env) (commands : List String)
    (background : Bool) (p : Proc) (hN : 2 ≤ commands.length)
    (hpipe : ∀ k, k < commands.length - 1 → env.pipe_ok k = true)
    (hfork : ∀ i, i < commands.length → (env.fork i).isSome = true)
    (hnoredir : ∀ cmd ∈ commands, ∀ tok ∈ (parse_input cmd).argv, is_redirect tok = false)
    (hclosed : p.fds.get STDIN_FILENO = none ∨ p.fds.get STDOUT_FILENO = none) :
    ∃ i c, i < commands.length ∧
      (execute_pipeline env commands background p).children[i]? = some c ∧
      ∀ file argv q, c.run = .execvp file argv q →
        q.fds.get STDIN_FILENO ≠
          (if 0 < i then some (.pipe_rd (i - 1)) else p.fds.get STDIN_FILENO) ∨
        q.fds.get STDOUT_FILENO ≠
          (if i < commands.length - 1 then some (.pipe_wr i)
           else p.fds.get STDOUT_FILENO) := by
  obtain ⟨pipes, p1, hc, _, _, _, heq⟩ :=
    execute_pipeline_eq env commands background p hN hpipe hfork
  -- the first pipe takes the lowest free descriptor
  obtain ⟨m, hm⟩ : ∃ m, commands.length - 1 = m + 1 := ⟨commands.length - 2, by omega⟩
  have hfirst : pipes[0]? = some (sys_pipe p 0).1 := by
    rw [hm] at hc
    simp only [create_pipes, hpipe 0 (by omega), if_true] at hc
    exact create_pipes_keeps env _ _ _ _ _ _ hc 0 _ (by simp)
  have hmem : (sys_pipe p 0).1 ∈ pipes := List.getElem?_mem hfirst
  have hrd : (sys_pipe p 0).1.1 = p.fds.lowestFree := rfl
  -- the children
  have hch : (execute_pipeline env commands background p).children =
      (commands.enumFrom 0).map (fun jc =>
        ⟨jc.1, (env.fork jc.1).getD 0,
          pipeline_child env pipes commands.length jc.1 (parse_input jc.2) p1⟩) := by
    rw [heq]
    cases background <;> rfl
  have hchild : ∀ i, i < commands.length → ∃ cmd c, commands[i]? = some cmd ∧
      (execute_pipeline env commands background p).children[i]? = some c ∧
      c.run = pipeline_child env pipes commands.length i (parse_input cmd) p1 := by
    intro i hi
    refine ⟨commands[i], ⟨i, (env.fork i).getD 0,
      pipeline_child env pipes commands.length i (parse_input commands[i]) p1⟩,
      List.getElem?_eq_getElem hi, ?_, rfl⟩
    rw [hch, List.getElem?_map, List.getElem?_enumFrom, List.getElem?_eq_getElem hi]
    simp
  have hcl : ∀ i cmd, commands[i]? = some cmd → ∀ file argv q,
      pipeline_child env pipes commands.length i (parse_input cmd) p1 = .execvp file argv q →
      q.fds.get (sys_pipe p 0).1.1 = none := by
    intro i cmd hcmd file argv q hrun
    have hno : ∀ tok ∈ strtok_all [' ', '\t', '\r', '\n', Char.ofNat 7] cmd.toList [],
        is_redirect tok = false := by
      intro tok hm'
      apply hnoredir cmd (List.getElem?_mem hcmd) tok
      rw [show (parse_input cmd).argv = _ from Args.argv_map_some _ _]
      exact hm'
    exact (pipeline_child_closes_pipes env pipes commands.length i _ p1 hno file argv q
      hrun _ hmem).1
  by_cases h0 : p.fds.get STDIN_FILENO = none
  · -- descriptor 0 is the read end of channel 0: the second child closes it
    have hlf : p.fds.lowestFree = STDIN_FILENO := (FdTable.lowestFree_eq_zero _).mpr h0
    obtain ⟨cmd, c, hcmd, hc1, hrun⟩ := hchild 1 (by omega)
    refine ⟨1, c, by omega, hc1, ?_⟩
    intro file argv q hq
    left
    rw [hrun] at hq
    have := hcl 1 cmd hcmd file argv q hq
    rw [hrd, hlf] at this
    rw [this]
    simp
  · -- descriptor 1 is the read end of channel 0: the first child closes it
    have h1 : p.fds.get STDOUT_FILENO = none := by
      rcases hclosed with h | h
      · exact absurd h h0
      · exact h
    have hlf : p.fds.lowestFree = STDOUT_FILENO :=
      (FdTable.lowestFree_eq_one _).mpr ⟨h0, h1⟩
    obtain ⟨cmd, c, hcmd, hc1, hrun⟩ := hchild 0 (by omega)
    refine ⟨0, c, by omega, hc1, ?_⟩
    intro file argv q hq
    right
    rw [hrun] at hq
    have := hcl 0 cmd hcmd file argv q hq
    rw [hrd, hlf] at this
    rw [this, if_pos (by omega)]
    simp

theorem closed_stdio_breaks_wiring_witness :
    2 ≤ ["a", "b", "c"].length ∧
    (no_stdout_proc.fds.get STDIN_FILENO = none ∨ no_stdout_proc.fds.get STDOUT_FILENO = none) ∧
    ∃ i c, i < ["a", "b", "c"].length ∧
      (execute_pipeline env_ok ["a", "b", "c"] false no_stdout_proc).children[i]? = some c ∧
      ∀ file argv q, c.run = .execvp file argv q →
        q.fds.get STDIN_FILENO ≠
          (if 0 < i then some (.pipe_rd (i - 1)) else no_stdout_proc.fds.get STDIN_FILENO) ∨
        q.fds.get STDOUT_FILENO ≠
          (if i < ["a", "b", "c"].length - 1 then some (.pipe_wr i)
           else no_stdout_proc.fds.get STDOUT_FILENO) :=
  ⟨by decide, by decide,
    closed_stdio_breaks_wiring env_ok ["a", "b", "c"] false no_stdout_proc (by decide)
      (fun _ _ => rfl) (fun _ _ => rfl) (by decide) (by decide)⟩

/-! ## Where the code departs from the claims -/

/-- C2: with three segments, a first `pipe` that succeeds and a second that fails,
`execute_pipeline` returns to its caller with no child created and with both ends of the
first channel still open in the parent (descriptors 3 and 4). -/
theorem pipe_failure_leaks_channel :
    (execute_pipeline env_second_pipe_fails ["a", "b", "c"] false std_proc).exit_code = none ∧
    (execute_pipeline env_second_pipe_fails ["a", "b", "c"] false std_proc).children = [] ∧
    (execute_pipeline env_second_pipe_fails ["a", "b", "c"] false std_proc).parent.fds.get 3
      = some (.pipe_rd 0) ∧
    (execute_pipeline env_second_pipe_fails ["a", "b", "c"] false std_proc).parent.fds.get 4
      = some (.pipe_wr 0) := by
  decide

/-- C5: for `nosuchcmd | wc`, with `command_exists("nosuchcmd")` false, `execute_pipeline`
still forks a child for the first segment (two children in all) and the parent prints no
command-not-found message: its log holds the two `waitpid` calls only. -/
theorem pipeline_forks_missing_command :
    env_missing.command_exists "nosuchcmd" = false ∧
    ((execute_pipeline env_missing ["nosuchcmd", "wc"] false std_proc).children.map
      (fun c => (c.seg, c.pid, c.run.argv?))) =
        [(0, 100, some ["nosuchcmd"]), (1, 101, some ["wc"])] ∧
    (execute_pipeline env_missing ["nosuchcmd", "wc"] false std_proc).parent.log =
      [.waitpid 100, .waitpid 101] := by
  decide

/-- C6: in the foreground pipeline `yes | head` whose first child is killed by signal 13
and whose last child exits with status 0, the parent waits for both and prints
`pipeline terminated by signal 13`, a message about a segment that is not the last. -/
theorem signal_of_earlier_segment_reported :
    env_first_signaled.status 1 = .exited 0 ∧
    (execute_pipeline env_first_signaled ["yes", "head"] false std_proc).parent.log =
      [.waitpid 100, .pipeline_signaled 13, .waitpid 101] := by
  decide

/-- C7: in the pipeline `ls | wc`, when the first `fork` fails the parent prints
`peri: fork failed` and calls `exit(EXIT_FAILURE)`: the interpreter ends inside
`execute_pipeline`. -/
theorem fork_failure_exits_interpreter :
    (execute_pipeline env_fork_fails ["ls", "wc"] false std_proc).exit_code
      = some EXIT_FAILURE ∧
    (execute_pipeline env_fork_fails ["ls", "wc"] false std_proc).parent.log =
      [.perror "peri: fork failed"] := by
  decide

/-- C8: in the background pipeline `yes | cat`, when the first `fork` succeeds and the second
fails one child has been created, yet the parent prints no announcement and does not return:
it calls `exit(EXIT_FAILURE)`. -/
theorem background_fork_failure_no_announcement :
    ((execute_pipeline env_second_fork_fails ["yes", "cat"] true std_proc).children.map
      (fun c => c.pid)) = [100] ∧
    (execute_pipeline env_second_fork_fails ["yes", "cat"] true std_proc).exit_code
      = some EXIT_FAILURE ∧
    (execute_pipeline env_second_fork_fails ["yes", "cat"] true std_proc).parent.log =
      [.perror "peri: fork failed"] := by
  decide

/-- C9: the line `&` is dispatched to the engine, `check_background` strips its only token,
`parse_pipes` returns 0 segments, and `execute_pipeline` announces the pid slot `pids[0]`
that no `fork` wrote. -/
theorem lone_ampersand_gives_zero_segments :
    (main_turn env_ok "&" std_proc).commands? = some [] ∧
    (main_turn env_ok "&" std_proc).outcome? =
      some ⟨⟨std_proc.fds, [.background_pipeline none]⟩, none, []⟩ := by
  decide

/-- C10: for the line `ls | | wc` the middle segment is empty, and `execute_pipeline` still
forks a child for it (pid 101), which calls `execvp` with a `NULL` program name. -/
theorem empty_segment_is_forked :
    (main_turn env_ok "ls | | wc" std_proc).commands? = some ["ls", "", "wc"] ∧
    ((main_turn env_ok "ls | | wc" std_proc).outcome?.map (fun out =>
      out.children.map (fun c => (c.seg, c.pid, c.run.argv?)))) =
        some [(0, 100, some ["ls"]), (1, 101, some []), (2, 102, some ["wc"])] ∧
    ((main_turn env_ok "ls | | wc" std_proc).outcome?.map (fun out =>
      out.children.map (fun c => c.run.file?))) =
        some [some (some "ls"), some none, some (some "wc")] := by
  decide

/-! ## What does hold around those departures -/

/-- On an array that ends in `NULL` the loop of `handle_redirection` always ends: the
fuel `handle_redirection` gives is enough. -/
theorem handle_redirection_total (env : Env) (toks : List String) (p : Proc) :
    handle_redirection env (toks.map some ++ [none]) p ≠ .out_of_fuel := by
  rw [handle_redirection_eq]
  cases redirect_all env toks p <;> simp

/-- The single-command path never ends the interpreter. -/
theorem execute_command_returns (env : Env) (args : Args) (background : Bool) (p : Proc) :
    (execute_command env args background p).exit_code = none := by
  unfold execute_command
  split
  · rfl
  · split
    · rfl
    · split
      · rfl
      · split <;> rfl

/-- The single-command path skips an empty segment: no fork, no message. -/
theorem execute_command_empty (env : Env) (args : Args) (background : Bool) (p : Proc)
    (h : args.at 0 = none) :
    execute_command env args background p = ⟨p, none, []⟩ := by
  simp [execute_command, h]

/-- The single-command path reports a command that `command_exists` does not find and
forks nothing for it. -/
theorem execute_command_not_found (env : Env) (args : Args) (background : Bool) (p : Proc)
    (cmd : String) (h : args.at 0 = some cmd) (hmiss : env.command_exists cmd = false) :
    execute_command env args background p = ⟨p.emit (.command_not_found cmd), none, []⟩ := by
  simp [execute_command, h, hmiss]

/-- The single-command path in the background: when a child is created the parent calls no
`waitpid` and prints one announcement, with the pid of that child. -/
theorem execute_command_background (env : Env) (args : Args) (p : Proc) (c : Child)
    (h : (execute_command env args true p).children = [c]) :
    (execute_command env args true p).parent.log = p.log ++ [.background_process c.pid] := by
  unfold execute_command at h ⊢
  split at h
  · cases h
  · split at h
    · cases h
    · split at h
      · cases h
      · simp only [Bool.not_true, Bool.false_eq_true, if_false, List.cons.injEq, and_true] at h
        subst h
        simp_all [Proc.emit]

theorem wait_loop_fds (env : Env) (n : Nat) :
    ∀ (pids : List Nat) (i : Nat) (p : Proc), (wait_loop env n pids i p).fds = p.fds := by
  intro pids
  induction pids with
  | nil => intro i p; rfl
  | cons pid rest ih =>
    intro i p
    simp only [wait_loop]
    rw [ih]
    cases env.status i with
    | exited code => simp only; split <;> rfl
    | signaled sig => rfl

theorem spawn_loop_error (env : Env) (pipes : List (Nat × Nat)) (n : Nat) (p : Proc) :
    ∀ (rest : List String) (i : Nat) (pids : List Nat) (cs : List Child) (out : Outcome),
      spawn_loop env pipes n p rest i pids cs = .error out →
      out.exit_code = some EXIT_FAILURE := by
  intro rest
  induction rest with
  | nil => intro i pids cs out h; simp [spawn_loop] at h
  | cons cmd rest ih =>
    intro i pids cs out h
    simp only [spawn_loop] at h
    cases hf : env.fork i with
    | none =>
      rw [hf] at h
      simp only [Except.error.injEq] at h
      rw [← h]
    | some pid =>
      rw [hf] at h
      exact ih _ _ _ out h

/-- The part of C2 the code keeps: for `N ≥ 2` segments, when every `pipe` succeeds exactly
`N - 1` channels are created, and if `execute_pipeline` then returns to its caller (whatever
each `fork` did) the parent holds no end of any channel. -/
theorem parent_teardown_when_pipes_succeed (env : Env) (commands : List String)
    (background : Bool) (p : Proc) (hN : 2 ≤ commands.length)
    (hpipe : ∀ k, k < commands.length - 1 → env.pipe_ok k = true)
    (hfresh : p.fds.noChannelEnds = true)
    (hret : (execute_pipeline env commands background p).exit_code = none) :
    (∃ pipes p1, create_pipes env (commands.length - 1) 0 [] p = .ok (pipes, p1) ∧
      pipes.length = commands.length - 1) ∧
    ∀ x r, (execute_pipeline env commands background p).parent.fds.get x = some r →
      r.isChannelEnd = false := by
  obtain ⟨pipes, p1, hc, hlen, _, hinv⟩ :=
    create_pipes_ok env p.fds (commands.length - 1) 0 [] p rfl
      (fun k _ hk => hpipe k (by omega)) (PipesInv.nil p.fds)
  refine ⟨⟨pipes, p1, hc, by omega⟩, ?_⟩
  have hne : ¬ commands.length = 1 := by omega
  have hclosed : ∀ x r, (close_pipes pipes p1).fds.get x = some r →
      r.isChannelEnd = false := by
    intro x r hr
    rw [close_pipes_get] at hr
    by_cases hany : pipes.any (fun pr => decide (x = pr.1) || decide (x = pr.2)) = true
    · rw [if_pos hany] at hr; cases hr
    · rw [if_neg hany] at hr
      have hnm := (pipes_any_false pipes x).mp (by simpa using hany)
      rw [hinv.2 x hnm] at hr
      exact FdTable.noChannelEnds_get p.fds hfresh x r hr
  simp only [execute_pipeline, hne, if_false, hc] at hret ⊢
  cases hs : spawn_loop env pipes commands.length p1 commands 0 [] [] with
  | error out =>
    rw [hs] at hret
    have := spawn_loop_error env pipes commands.length p1 commands 0 [] [] out hs
    simp only at hret
    rw [this] at hret
    cases hret
  | ok pc =>
    intro x r
    cases background
    · simp only [Bool.not_false, if_true, wait_loop_fds]
      exact hclosed x r
    · simp only [Bool.not_true, Bool.false_eq_true, if_false, Proc.emit]
      exact hclosed x r

theorem parent_teardown_when_pipes_succeed_witness :
    (execute_pipeline env_second_fork_fails ["a", "b"] false std_proc).exit_code ≠ none ∧
    (∃ pipes p1, create_pipes env_ok (["a", "b", "c"].length - 1) 0 [] std_proc
        = .ok (pipes, p1) ∧ pipes.length = ["a", "b", "c"].length - 1) ∧
    ∀ x r, (execute_pipeline env_ok ["a", "b", "c"] false std_proc).parent.fds.get x = some r →
      r.isChannelEnd = false :=
  ⟨by decide,
    parent_teardown_when_pipes_succeed env_ok ["a", "b", "c"] false std_proc (by decide)
      (fun _ _ => rfl) (by decide) (by decide)⟩

/-- The part of C8 the code keeps: a background pipeline of `N ≥ 2` segments in which every
`pipe` and every `fork` succeeds returns to the caller, and all the parent emits is one
announcement, with the pid of the first child; it calls no `waitpid`. -/
theorem background_returns_after_one_announcement (env : Env) (commands : List String)
    (p : Proc) (hN : 2 ≤ commands.length)
    (hpipe : ∀ k, k < commands.length - 1 → env.pipe_ok k = true)
    (hfork : ∀ i, i < commands.length → (env.fork i).isSome = true) :
    (execute_pipeline env commands true p).exit_code = none ∧
    (execute_pipeline env commands true p).children.length = commands.length ∧
    ∃ pid, env.fork 0 = some pid ∧
      (execute_pipeline env commands true p).parent.log =
        p.log ++ [.background_pipeline (some pid)] := by
  obtain ⟨pipes, p1, _, _, _, hlog, heq⟩ := execute_pipeline_eq env commands true p hN hpipe hfork
  obtain ⟨pid, hpid⟩ := Option.isSome_iff_exists.mp (hfork 0 (by omega))
  rw [heq]
  refine ⟨rfl, by simp, pid, hpid, ?_⟩
  cases commands with
  | nil => simp at hN
  | cons c cs =>
    simp [Proc.emit, close_pipes_log, hlog, hpid]

theorem background_returns_after_one_announcement_witness :
    2 ≤ ["yes", "cat"].length ∧
    (execute_pipeline env_ok ["yes", "cat"] true std_proc).exit_code = none ∧
    (execute_pipeline env_ok ["yes", "cat"] true std_proc).children.length
      = ["yes", "cat"].length ∧
    ∃ pid, env_ok.fork 0 = some pid ∧
      (execute_pipeline env_ok ["yes", "cat"] true std_proc).parent.log =
        std_proc.log ++ [.background_pipeline (some pid)] :=
  ⟨by decide,
    background_returns_after_one_announcement env_ok ["yes", "cat"] std_proc (by decide)
      (fun _ _ => rfl) (fun _ _ => rfl)⟩

theorem parse_pipes_loop_length (toks : List String) :
    ∀ (i : Nat) (commands : List String), commands.length = i → i ≤ MAX_PIPES →
      (parse_pipes_loop toks i commands).length ≤ MAX_PIPES ∧
      (toks ≠ [] → i + 1 ≤ MAX_PIPES → i + 1 ≤ (parse_pipes_loop toks i commands).length) ∧
      i ≤ (parse_pipes_loop toks i commands).length := by
  induction toks with
  | nil =>
    intro i commands hlen hi
    exact ⟨by simpa [parse_pipes_loop, hlen] using hi, fun h => absurd rfl h,
      by simp [parse_pipes_loop, hlen]⟩
  | cons tok rest ih =>
    intro i commands hlen hi
    by_cases hlt : i < MAX_PIPES
    · simp only [parse_pipes_loop, hlt, if_true]
      obtain ⟨a, _, c⟩ := ih (i + 1) (commands ++ [trim tok]) (by simp [hlen]) hlt
      exact ⟨a, fun _ _ => c, by omega⟩
    · simp only [parse_pipes_loop, hlt, if_false]
      exact ⟨by omega, fun _ h => by omega, by omega⟩

/-- The part of C9 the code keeps: whatever the line, `parse_pipes` hands at most
`MAX_PIPES` segments to `execute_pipeline`. -/
theorem parse_pipes_length_le (input : String) :
    (parse_pipes input).length ≤ MAX_PIPES :=
  (parse_pipes_loop_length _ 0 [] rfl (by decide)).1

/-- Redirection over pipe wiring, seen in the pipeline itself: in `a | b > out | c` the
child of the middle segment reaches `execvp` with standard input on the read end of channel
0 and standard output on the file `out`, not on the write end of channel 1. -/
theorem middle_segment_redirect_overrides_pipe :
    ((execute_pipeline env_ok ["a", "b > out", "c"] false std_proc).children.map
      (fun c => match c.run with
        | .execvp _ argv q => some (argv, q.fds.get STDIN_FILENO, q.fds.get STDOUT_FILENO)
        | _ => none)) =
      [some (["a"], some (.inherited 0), some (.pipe_wr 0)),
       some (["b"], some (.pipe_rd 0), some (.file "out" .wr_creat_trunc)),
       some (["c"], some (.pipe_rd 1), some (.inherited 1))] := by
  decide

/-! ## The departures, for every pipeline -/

/-- With every `pipe` and `fork` succeeding, a pipeline of `N ≥ 2` segments gets one child
per segment, whatever the segments hold (an empty token list, a command that
`command_exists` does not find): the fork loop has no guard. -/
theorem pipeline_forks_every_segment (env : Env) (commands : List String)
    (background : Bool) (p : Proc) (hN : 2 ≤ commands.length)
    (hpipe : ∀ k, k < commands.length - 1 → env.pipe_ok k = true)
    (hfork : ∀ i, i < commands.length → (env.fork i).isSome = true) :
    (execute_pipeline env commands background p).children.length = commands.length ∧
    ∀ e ∈ (execute_pipeline env commands background p).parent.log,
      e ∈ p.log ∨ ∀ cmd, e ≠ .command_not_found cmd := by
  obtain ⟨pipes, p1, _, _, _, hlog, heq⟩ :=
    execute_pipeline_eq env commands background p hN hpipe hfork
  rw [heq]
  cases background
  · refine ⟨by simp, ?_⟩
    simp only [Bool.not_false, if_true]
    have key : ∀ (pids : List Nat) (i : Nat) (q : Proc),
        (∀ e ∈ q.log, e ∈ p.log ∨ ∀ cmd, e ≠ .command_not_found cmd) →
        ∀ e ∈ (wait_loop env commands.length pids i q).log,
          e ∈ p.log ∨ ∀ cmd, e ≠ .command_not_found cmd := by
      intro pids
      induction pids with
      | nil => intro i q hq; exact hq
      | cons pid rest ih =>
        intro i q hq
        simp only [wait_loop]
        apply ih
        intro e he
        cases hst : env.status i with
        | exited code =>
          rw [hst] at he
          simp only [Proc.emit] at he
          split at he
          · simp only [List.mem_append, List.mem_singleton] at he
            rcases he with (he | he) | he
            · exact hq e he
            · right; intro cmd; rw [he]; simp
            · right; intro cmd; rw [he]; simp
          · simp only [List.mem_append, List.mem_singleton] at he
            rcases he with he | he
            · exact hq e he
            · right; intro cmd; rw [he]; simp
        | signaled sig =>
          rw [hst] at he
          simp only [Proc.emit, List.mem_append, List.mem_singleton] at he
          rcases he with (he | he) | he
          · exact hq e he
          · right; intro cmd; rw [he]; simp
          · right; intro cmd; rw [he]; simp
    apply key
    intro e he
    rw [close_pipes_log, hlog] at he
    exact Or.inl he
  · refine ⟨by simp, ?_⟩
    intro e he
    simp only [Bool.not_true, Bool.false_eq_true, if_false, Proc.emit, close_pipes_log, hlog,
      List.mem_append, List.mem_singleton] at he
    rcases he with he | he
    · exact Or.inl he
    · right; intro cmd; rw [he]; simp

theorem pipeline_forks_every_segment_witness :
    2 ≤ ["nosuchcmd", "", "wc"].length ∧
    (execute_pipeline env_missing ["nosuchcmd", "", "wc"] false std_proc).children.length
      = ["nosuchcmd", "", "wc"].length ∧
    ∀ e ∈ (execute_pipeline env_missing ["nosuchcmd", "", "wc"] false std_proc).parent.log,
      e ∈ std_proc.log ∨ ∀ cmd, e ≠ .command_not_found cmd :=
  ⟨by decide,
    pipeline_forks_every_segment env_missing ["nosuchcmd", "", "wc"] false std_proc
      (by decide) (fun _ _ => rfl) (fun _ _ => rfl)⟩

theorem spawn_loop_fork_fails (env : Env) (pipes : List (Nat × Nat)) (n : Nat) (p : Proc) :
    ∀ (rest : List String) (i : Nat) (pids : List Nat) (cs : List Child),
      (∃ j, j < rest.length ∧ env.fork (i + j) = none) →
      ∃ out, spawn_loop env pipes n p rest i pids cs = .error out ∧
        out.exit_code = some EXIT_FAILURE := by
  intro rest
  induction rest with
  | nil => intro i pids cs ⟨j, hj, _⟩; simp at hj
  | cons cmd rest ih =>
    intro i pids cs ⟨j, hj, hfail⟩
    cases hf : env.fork i with
    | none =>
      exact ⟨⟨p.emit (.perror "peri: fork failed"), some EXIT_FAILURE, cs⟩,
        by simp only [spawn_loop, hf], rfl⟩
    | some pid =>
      simp only [spawn_loop, hf]
      apply ih
      cases j with
      | zero => rw [Nat.add_zero, hf] at hfail; cases hfail
      | succ j =>
        refine ⟨j, by simpa using hj, ?_⟩
        rwa [show i + 1 + j = i + (j + 1) by omega]

/-- In every pipeline of `N ≥ 2` segments whose pipes are all created, a `fork` that fails
ends the interpreter: `execute_pipeline` does not return, the parent calls
`exit(EXIT_FAILURE)`. -/
theorem fork_failure_always_exits (env : Env) (commands : List String) (background : Bool)
    (p : Proc) (hN : 2 ≤ commands.length)
    (hpipe : ∀ k, k < commands.length - 1 → env.pipe_ok k = true)
    (hfail : ∃ i, i < commands.length ∧ env.fork i = none) :
    (execute_pipeline env commands background p).exit_code = some EXIT_FAILURE := by
  obtain ⟨pipes, p1, hc, _, _, _⟩ :=
    create_pipes_ok env p.fds (commands.length - 1) 0 [] p rfl
      (fun k _ hk => hpipe k (by omega)) (PipesInv.nil p.fds)
  obtain ⟨i, hi, hf⟩ := hfail
  obtain ⟨out, hs, hout⟩ := spawn_loop_fork_fails env pipes commands.length p1 commands 0 [] []
    ⟨i, hi, by rw [Nat.zero_add]; exact hf⟩
  have hne : ¬ commands.length = 1 := by omega
  simp only [execute_pipeline, hne, if_false, hc, hs]
  exact hout

theorem fork_failure_always_exits_witness :
    2 ≤ ["yes", "cat"].length ∧
    (∃ i, i < ["yes", "cat"].length ∧ env_second_fork_fails.fork i = none) ∧
    (execute_pipeline env_second_fork_fails ["yes", "cat"] true std_proc).exit_code
      = some EXIT_FAILURE :=
  ⟨by decide, ⟨1, by decide, rfl⟩,
    fork_failure_always_exits env_second_fork_fails ["yes", "cat"] true std_proc (by decide)
      (fun _ _ => rfl) ⟨1, by decide, rfl⟩⟩

theorem wait_loop_log_mono (env : Env) (n : Nat) :
    ∀ (pids : List Nat) (i : Nat) (p : Proc) (e : Event), e ∈ p.log →
      e ∈ (wait_loop env n pids i p).log := by
  intro pids
  induction pids with
  | nil => intro i p e he; exact he
  | cons pid rest ih =>
    intro i p e he
    simp only [wait_loop]
    apply ih
    cases env.status i with
    | exited code =>
      simp only [Proc.emit]
      split <;> simp [he]
    | signaled sig => simp [Proc.emit, he]

theorem wait_loop_signal (env : Env) (n : Nat) :
    ∀ (pids : List Nat) (i : Nat) (p : Proc) (j sig : Nat), j < pids.length →
      env.status (i + j) = .signaled sig →
      .pipeline_signaled sig ∈ (wait_loop env n pids i p).log := by
  intro pids
  induction pids with
  | nil => intro i p j sig hj; simp at hj
  | cons pid rest ih =>
    intro i p j sig hj hst
    simp only [wait_loop]
    cases j with
    | zero =>
      rw [Nat.add_zero] at hst
      apply wait_loop_log_mono
      rw [hst]
      simp [Proc.emit]
    | succ j =>
      apply ih (i + 1) _ j sig (by simpa using hj)
      rwa [show i + 1 + j = i + (j + 1) by omega]

/-- In every foreground pipeline of `N ≥ 2` segments in which every `pipe` and `fork`
succeeds, a child of any segment, the last or not, that a signal terminates gets its
`pipeline terminated by signal` message. -/
theorem signal_reported_for_any_segment (env : Env) (commands : List String) (p : Proc)
    (hN : 2 ≤ commands.length)
    (hpipe : ∀ k, k < commands.length - 1 → env.pipe_ok k = true)
    (hfork : ∀ i, i < commands.length → (env.fork i).isSome = true)
    (i sig : Nat) (hi : i < commands.length) (hst : env.status i = .signaled sig) :
    .pipeline_signaled sig ∈ (execute_pipeline env commands false p).parent.log := by
  obtain ⟨pipes, p1, _, _, _, _, heq⟩ := execute_pipeline_eq env commands false p hN hpipe hfork
  rw [heq]
  simp only [Bool.not_false, if_true]
  apply wait_loop_signal env commands.length _ 0 _ i sig (by simpa using hi)
  rw [Nat.zero_add]
  exact hst

theorem signal_reported_for_any_segment_witness :
    2 ≤ ["yes", "head"].length ∧ (0 : Nat) < ["yes", "head"].length ∧
    env_first_signaled.status 0 = .signaled 13 ∧
    .pipeline_signaled 13 ∈
      (execute_pipeline env_first_signaled ["yes", "head"] false std_proc).parent.log :=
  ⟨by decide, by decide, rfl,
    signal_reported_for_any_segment env_first_signaled ["yes", "head"] std_proc (by decide)
      (fun _ _ => rfl) (fun _ _ => rfl) 0 13 (by decide) rfl⟩

end Shell
